import Mathlib

/-!
Verification model of the event-sourced DynamoDB store
(`src/db/index.ts`, `src/index.ts`, with the Processor of
`src/processor.ts` modelled from the specification).

The embedding is shallow: TypeScript values become Lean values, the
DynamoDB table becomes an explicit list of records, and the
`TransactWriteCommand` semantics (all conditions evaluated against the
pre-transaction table, all-or-nothing application) become an explicit
`commitTx` function.  JavaScript exceptions become `Except` errors.
All payload types (`TState`, `TInputEvents`, `TOutputEvents`) are
represented by a single type parameter `P`, matching the loosely typed
single-table design of the source.
-/

namespace EvDB

/-! ## Decimal rendering of a JS number

`natStr n` models the JavaScript template-literal conversion of the
non-negative integer `n` to its decimal string, as used in
`INBOUND/${type}/${seq}` and `OUTBOUND/${type}/${seq}/${index}`. -/

/-- The decimal digit character for `n` (defined for `n < 10`). -/
def digChar (n : Nat) : Char :=
  match n with
  | 0 => '0' | 1 => '1' | 2 => '2' | 3 => '3' | 4 => '4'
  | 5 => '5' | 6 => '6' | 7 => '7' | 8 => '8' | 9 => '9'
  | _ => '*'

/-- Decimal digit list, most significant first, by structural
recursion on a fuel bound (`natDigits` supplies fuel `n ≥ n`). -/
def natDigitsAux : Nat → Nat → List Char
  | 0, n => [digChar n]
  | fuel + 1, n =>
    if n < 10 then [digChar n]
    else natDigitsAux fuel (n / 10) ++ [digChar (n % 10)]

/-- Decimal digit list of `n`, most significant first. -/
def natDigits (n : Nat) : List Char := natDigitsAux n n

/-- Decimal string of a natural number, modelling the JS `${n}` conversion. -/
def natStr (n : Nat) : String := String.mk (natDigits n)

/-- Reparse a digit list, left fold base 10. -/
def parseDigits (l : List Char) : Nat :=
  l.foldl (fun a c => a * 10 + (c.toNat - 48)) 0

/-! ## The record model (`src/db/index.ts`)

`BaseRecord` carries the envelope fields `_id`, `_rng`, `_facet`,
`_typ`, `_ts`, `_date`, `_seq`; the payload (`TItem`) is held in the
`item` field.  Field names drop the leading underscore.  `_seq` is a
JS number used as a non-negative event counter, modelled as `Nat`;
`_ts` (millisecond timestamp) is modelled as `Int`. -/

/-- A `Date` as used by the source: `getTime()` and `toISOString()`. -/
structure JSDate where
  ms : Int
  iso : String
deriving DecidableEq, Repr

/-- `BaseRecord & TItem`: the envelope plus the payload. -/
structure Rec (P : Type) where
  rid : String
  rng : String
  facet : String
  typ : String
  ts : Int
  date : String
  seq : Nat
  item : P
deriving DecidableEq, Repr

/-- `facetId`: group id of a primary record. -/
def facetId (facet id : String) : String := facet ++ "/" ++ id

/-- `secondaryIndexId`: group id of a secondary-index record. -/
def secondaryIndexId (facet secondaryIndex id : String) : String :=
  facet ++ "/" ++ secondaryIndex ++ "/" ++ id

/-- `newRecord`: construct a record with the shared envelope. -/
def newRecord (P : Type) (facet id : String) (seq : Nat) (rng typ : String)
    (item : P) (time : JSDate) : Rec P :=
  { rid := facetId facet id
    rng := rng
    facet := facet
    typ := typ
    ts := time.ms
    date := time.iso
    seq := seq
    item := item }

/-- `isFacet`. -/
def isFacet (P : Type) (facet : String) (r : Rec P) : Bool := r.facet == facet

/-- `newStateRecord`. -/
def newStateRecord (P : Type) (facet id : String) (seq : Nat) (item : P)
    (time : JSDate) : Rec P :=
  newRecord P facet id seq "STATE" facet item time

/-- Char-sequence prefix test (structural recursion). -/
def charsHavePre : List Char → List Char → Bool
  | [], _ => true
  | _ :: _, [] => false
  | a :: as, b :: bs => a == b && charsHavePre as bs

/-- JS `String.prototype.startsWith`: char-sequence prefix test. -/
def jsStartsWith (s pre : String) : Bool := charsHavePre pre.data s.data

/-- `isStateRecord`. -/
def isStateRecord (P : Type) (r : Rec P) : Bool := r.rng == "STATE"

/-- `inboundRecordRangeKey`. -/
def inboundRecordRangeKey (type : String) (seq : Nat) : String :=
  "INBOUND/" ++ type ++ "/" ++ natStr seq

/-- `newInboundRecord`. -/
def newInboundRecord (P : Type) (facet id : String) (seq : Nat) (type : String)
    (item : P) (time : JSDate) : Rec P :=
  newRecord P facet id seq (inboundRecordRangeKey type seq) type item time

/-- `isInboundRecord`. -/
def isInboundRecord (P : Type) (r : Rec P) : Bool := jsStartsWith r.rng "INBOUND"

/-- `outboundRecordRangeKey`. -/
def outboundRecordRangeKey (type : String) (seq : Nat) (index : Nat) : String :=
  "OUTBOUND/" ++ type ++ "/" ++ natStr seq ++ "/" ++ natStr index

/-- `newOutboundRecord`. -/
def newOutboundRecord (P : Type) (facet id : String) (seq : Nat) (index : Nat)
    (type : String) (item : P) (time : JSDate) : Rec P :=
  newRecord P facet id seq (outboundRecordRangeKey type seq index) type item time

/-- `isOutboundRecord`. -/
def isOutboundRecord (P : Type) (r : Rec P) : Bool := jsStartsWith r.rng "OUTBOUND"

/-! ## The DynamoDB table and transaction model

The table is a list of records with at most one record per primary key
`(_id, _rng)`.  A `TransactWriteCommand` evaluates every item's
condition against the pre-transaction table; if all hold, every put is
applied, otherwise nothing is applied and the whole transaction is
cancelled (`TransactionCanceledException`). -/

/-- The DynamoDB table contents. -/
def Store (P : Type) : Type := List (Rec P)

/-- Two records share a primary key when `_id` and `_rng` agree. -/
def sameKey (P : Type) (a b : Rec P) : Bool := a.rid == b.rid && a.rng == b.rng

/-- Point lookup by primary key. -/
def storeGet (P : Type) (store : Store P) (rid rng : String) : Option (Rec P) :=
  store.find? (fun r => r.rid == rid && r.rng == rng)

/-- Apply one put: replace any record at the same key, else append. -/
def storePut (P : Type) (store : Store P) (r : Rec P) : Store P :=
  store.filter (fun x => !sameKey P x r) ++ [r]

/-- A put item's condition expression. -/
inductive WriteCond where
  /-- `attribute_not_exists(#_id)` -/
  | notExists : WriteCond
  /-- `attribute_not_exists(#_id) OR #_seq = :_seq` -/
  | casSeq (prev : Nat) : WriteCond
  /-- no condition expression -/
  | uncond : WriteCond
deriving DecidableEq, Repr

/-- One `Put` entry of a `TransactWriteCommand`. -/
structure TxPut (P : Type) where
  item : Rec P
  cond : WriteCond
deriving DecidableEq, Repr

/-- `createPutItem`: conditional put guarding against an existing key. -/
def createPutItem (P : Type) (r : Rec P) : TxPut P := ⟨r, WriteCond.notExists⟩

/-- `createPutState`: the compare-and-swap put for the state record. -/
def createPutState (P : Type) (r : Rec P) (previousSeq : Nat) : TxPut P :=
  ⟨r, WriteCond.casSeq previousSeq⟩

/-- `createPutSecondaryIndex`: unconditional put. -/
def createPutSecondaryIndex (P : Type) (r : Rec P) : TxPut P := ⟨r, WriteCond.uncond⟩

/-- Evaluate a put's condition against the pre-transaction table. -/
def condOk (P : Type) (store : Store P) (p : TxPut P) : Bool :=
  match p.cond with
  | WriteCond.uncond => true
  | WriteCond.notExists => (storeGet P store p.item.rid p.item.rng).isNone
  | WriteCond.casSeq prev =>
    match storeGet P store p.item.rid p.item.rng with
    | none => true
    | some r => r.seq == prev

/-- Errors surfaced by a gateway call: a JS `Error` thrown by the
gateway's own validation code, or the backend's transaction
cancellation (each entry of the reason list tells whether that put's
condition failed). -/
inductive DBError where
  | thrown (message : String) : DBError
  | canceled (reasons : List Bool) : DBError
deriving DecidableEq, Repr

/-- `TransactWriteCommand` semantics: all-or-nothing conditional puts. -/
def commitTx (P : Type) (store : Store P) (items : List (TxPut P)) :
    Except DBError (Store P) :=
  if items.all (condOk P store) then
    Except.ok (items.foldl (fun s p => storePut P s p.item) store)
  else
    Except.error (DBError.canceled (items.map (fun p => !condOk P store p)))

/-! ## The storage gateway (`EventDB`, `src/db/index.ts`) -/

/-- `EventDB.getState`: strongly consistent point read of the state record. -/
def getState (P : Type) (facet : String) (store : Store P) (id : String) :
    Option (Rec P) :=
  storeGet P store (facetId facet id) "STATE"

/-- `EventDB.queryRecords`: all records of the group, in table order. -/
def queryRecords (P : Type) (facet : String) (store : Store P) (id : String) :
    List (Rec P) :=
  store.filter (fun r => r.rid == facetId facet id)

/-- `EventDB.queryRecordsBySecondaryIndex`. -/
def queryRecordsBySecondaryIndex (P : Type) (facet : String) (store : Store P)
    (byIndex id : String) : List (Rec P) :=
  store.filter (fun r => r.rid == secondaryIndexId facet byIndex id)

/-- `EventDB.queryRecordsByRangePrefix`. -/
def queryRecordsByRangePrefix (P : Type) (facet : String) (store : Store P)
    (rng id : String) : List (Rec P) :=
  store.filter (fun r => r.rid == facetId facet id && jsStartsWith r.rng rng)

/-- The validation message of `putState` for an oversized transaction. -/
def tooLargeMsg (count : Nat) : String :=
  "putState: cannot exceed maximum DynamoDB transaction count of 25. " ++
    "The transaction attempted to write " ++ natStr count ++ "."

/-- The facet-mismatch validation message of `putState`. -/
def mismatchedFacetMsg (expected got : String) : String :=
  "putState: state record has mismatched facet. Expected: \"" ++ expected ++
    "\", got: \"" ++ got ++ "\""

/-- The transaction items built by `putState` once validation passes:
one conditional put per inbound record, one per outbound record, one
unconditional put per secondary-index record, and the compare-and-swap
put of the state record. -/
def putStateItems (P : Type) (state : Rec P) (previousSeq : Nat)
    (inbound outbound secondaryIndexRecords : List (Rec P)) : List (TxPut P) :=
  inbound.map (createPutItem P) ++ outbound.map (createPutItem P) ++
    secondaryIndexRecords.map (createPutSecondaryIndex P) ++
    [createPutState P state previousSeq]

/-- `EventDB.putState` before any backend I/O: the validations, in
source order, then the built transaction. -/
def putStateTx (P : Type) (facet : String) (state : Rec P) (previousSeq : Nat)
    (inbound outbound secondaryIndexRecords : List (Rec P)) :
    Except String (List (TxPut P)) :=
  if !(isStateRecord P state) then
    Except.error "putState: invalid state record"
  else if !(isFacet P facet state) then
    Except.error (mismatchedFacetMsg facet state.facet)
  else if inbound.any (fun d => !(isInboundRecord P d)) then
    Except.error "putState: invalid inbound record"
  else if inbound.any (fun d => !(isFacet P facet d)) then
    Except.error "putState: invalid facet for inbound record"
  else if outbound.any (fun e => !(isOutboundRecord P e)) then
    Except.error "putState: invalid outbound record"
  else if outbound.any (fun e => !(isFacet P facet e)) then
    Except.error "putState: invalid facet for outbound record"
  else if secondaryIndexRecords.length + outbound.length + inbound.length + 1 > 25 then
    Except.error
      (tooLargeMsg (secondaryIndexRecords.length + outbound.length + inbound.length + 1))
  else
    Except.ok (putStateItems P state previousSeq inbound outbound secondaryIndexRecords)

/-- `EventDB.putState` including the backend call: validate, build the
transaction, send it.  An `Except.error` means the call threw and the
table is unchanged. -/
def putState (P : Type) (facet : String) (store : Store P) (state : Rec P)
    (previousSeq : Nat) (inbound outbound secondaryIndexRecords : List (Rec P)) :
    Except DBError (Store P) :=
  match putStateTx P facet state previousSeq inbound outbound secondaryIndexRecords with
  | Except.error msg => Except.error (DBError.thrown msg)
  | Except.ok items => commitTx P store items

/-- The table after a `putState` call: unchanged whenever the call threw
or the transaction was cancelled. -/
def putStateResultStore (P : Type) (facet : String) (store : Store P) (state : Rec P)
    (previousSeq : Nat) (inbound outbound secondaryIndexRecords : List (Rec P)) :
    Store P :=
  match putState P facet store state previousSeq inbound outbound secondaryIndexRecords with
  | Except.ok store2 => store2
  | Except.error _ => store

/-! ## The Reduction Engine (`src/processor.ts`)

Modelled from the spec: the source file `src/processor.ts` is not part
of the provided sources (only its callers, tests and re-exports are),
so the `Event`, `Processor` and `process` definitions below follow
spec section 4.3 word for word: a mapping from event-type name to an
update rule `(currentState, eventPayload, outboundEventSink) → newState`,
an optional initializer (default-constructed state when absent),
replay of `pastEvents` in order collecting their outbound events
separately from those of `newEvents`, no-op for unregistered event
types, and fail-fast on a rule error. -/

/-- `Event`: a typed event payload pair. -/
structure Event (P : Type) where
  type : String
  event : P
deriving DecidableEq, Repr

/-- An update rule: from current state and event payload to the new
state plus the outbound events published to the sink, or a thrown
error. -/
def StateUpdater (P : Type) : Type :=
  P → P → Except String (P × List (Event P))

/-- `Processor`: the rules map and the optional initial-state function. -/
structure Processor (P : Type) where
  rules : String → Option (StateUpdater P)
  initial : Option (Unit → P)

/-- The result of `Processor.process`. -/
structure ProcessResult (P : Type) where
  state : P
  pastOutboundEvents : List (Event P)
  newOutboundEvents : List (Event P)
deriving DecidableEq, Repr

/-- Apply one event: an unregistered type is a no-op on state and
publishes nothing; a registered rule produces the new state and its
published outbound events, or throws. -/
def applyEvent (P : Type) (proc : Processor P) (acc : P × List (Event P))
    (e : Event P) : Except String (P × List (Event P)) :=
  match proc.rules e.type with
  | none => Except.ok acc
  | some rule =>
    match rule acc.1 e.event with
    | Except.error msg => Except.error msg
    | Except.ok (s2, out) => Except.ok (s2, acc.2 ++ out)

/-- The starting state: the supplied state, else the initializer's
output, else a default-constructed state. -/
def startOf (P : Type) [Inhabited P] (proc : Processor P) (state : Option P) : P :=
  match state with
  | some s => s
  | none =>
    match proc.initial with
    | some f => f ()
    | none => default

/-- Run a list of events from a state, collecting published outbound
events, failing fast on the first rule error. -/
def runEvents (P : Type) (proc : Processor P) (s : P) (events : List (Event P)) :
    Except String (P × List (Event P)) :=
  events.foldlM (applyEvent P proc) (s, [])

/-- Modelled from the spec: `Processor.process(initialStateOrNull,
pastEvents, newEvents)` replays `pastEvents` in order collecting their
outbound events as `pastOutboundEvents`, then applies `newEvents`
collecting theirs as `newOutboundEvents`; the starting state is the
supplied state, else the initializer's output, else a
default-constructed state. -/
def process (P : Type) [Inhabited P] (proc : Processor P) (state : Option P)
    (pastEvents newEvents : List (Event P)) : Except String (ProcessResult P) :=
  match runEvents P proc (startOf P proc state) pastEvents with
  | Except.error msg => Except.error msg
  | Except.ok (s1, pastOut) =>
    match runEvents P proc s1 newEvents with
    | Except.error msg => Except.error msg
    | Except.ok (s2, newOut) => Except.ok ⟨s2, pastOut, newOut⟩

/-! ## The aggregate facade (`Facet`, `src/index.ts`) -/

/-- `ChangeOutput`. -/
structure ChangeOutput (P : Type) where
  seq : Nat
  item : P
  pastOutboundEvents : List (Event P)
  newOutboundEvents : List (Event P)
deriving DecidableEq, Repr

/-- An `IndexStateFunc`: reshape the state record for a secondary
index, or `none` to skip indexing on this transition. -/
def IndexStateFunc (P : Type) : Type := Rec P → Option (Rec P)

/-- A `Facet`: name, processor and secondary-index functions (the
`EventDB` is represented by the explicit `Store`; its facet equals the
facet's name, as in the source composition). -/
structure Facet (P : Type) where
  name : String
  processor : Processor P
  indexStateFuncs : List (IndexStateFunc P)

/-- JS `Array.prototype.map((e, i) => f i e)` with an index offset. -/
def idxMap (A B : Type) (f : Nat → A → B) : Nat → List A → List B
  | _, [] => []
  | i, x :: xs => f i x :: idxMap A B f (i + 1) xs

/-- `Facet.mapPastInboundRecordToEvent`: strip the envelope fields of a
past inbound record, keeping `(_typ, payload)` as an `Event`. -/
def mapPastInboundRecordToEvent (P : Type) (pastInboundEvents : List (Rec P)) :
    List (Event P) :=
  pastInboundEvents.map (fun e => ⟨e.typ, e.item⟩)

/-- The records built by one `Facet.calculate` call, together with the
`ChangeOutput` it returns. -/
structure CalcRecords (P : Type) where
  stateRecord : Rec P
  newInboundRecords : List (Rec P)
  newOutboundRecords : List (Rec P)
  indexRecords : List (Rec P)
  output : ChangeOutput P
deriving Repr

/-- `Facet.calculate` up to (but not including) the `putState` call:
process the events, then build the new state record at sequence
`seq + k`, the `k` new inbound records at sequences `seq+1 … seq+k`,
one outbound record per newly emitted outbound event (stamped with
sequence `seq + k` and its position as index), and the secondary-index
records. -/
def calcRecords (P : Type) [Inhabited P] (f : Facet P) (id : String)
    (state : Option P) (seq : Nat) (pastInboundEvents : List (Rec P))
    (newInboundEvents : List (Event P)) (now : JSDate) :
    Except String (CalcRecords P) :=
  let pastEvents := mapPastInboundRecordToEvent P pastInboundEvents
  match process P f.processor state pastEvents newInboundEvents with
  | Except.error msg => Except.error msg
  | Except.ok result =>
    let stateRecord :=
      newStateRecord P f.name id (seq + newInboundEvents.length) result.state now
    let newInboundRecords :=
      idxMap (Event P) (Rec P)
        (fun i e => newInboundRecord P f.name id (seq + 1 + i) e.type e.event now)
        0 newInboundEvents
    let newOutboundRecords :=
      idxMap (Event P) (Rec P)
        (fun i e =>
          newOutboundRecord P f.name id (seq + newInboundEvents.length) i e.type e.event now)
        0 result.newOutboundEvents
    let indexRecords := f.indexStateFuncs.filterMap (fun sif => sif stateRecord)
    Except.ok
      ⟨stateRecord, newInboundRecords, newOutboundRecords, indexRecords,
        ⟨stateRecord.seq, result.state, result.pastOutboundEvents,
          result.newOutboundEvents⟩⟩

/-- `Facet.calculate` including the `putState` call. -/
def calculate (P : Type) [Inhabited P] (f : Facet P) (store : Store P) (id : String)
    (state : Option P) (seq : Nat) (pastInboundEvents : List (Rec P))
    (newInboundEvents : List (Event P)) (now : JSDate) :
    Except DBError (Store P × ChangeOutput P) :=
  match calcRecords P f id state seq pastInboundEvents newInboundEvents now with
  | Except.error msg => Except.error (DBError.thrown msg)
  | Except.ok c =>
    match putState P f.name store c.stateRecord seq c.newInboundRecords
        c.newOutboundRecords c.indexRecords with
    | Except.error e => Except.error e
    | Except.ok store2 => Except.ok (store2, c.output)

/-- `Facet.appendTo`: single-write path trusting the supplied state and
sequence; the past-event list is empty. -/
def appendTo (P : Type) [Inhabited P] (f : Facet P) (store : Store P) (id : String)
    (state : Option P) (seq : Nat) (newInboundEvents : List (Event P))
    (now : JSDate) : Except DBError (Store P × ChangeOutput P) :=
  calculate P f store id state seq [] newInboundEvents now

/-- `Facet.append`: read the current state record, then `appendTo` with
its payload and sequence (payload `null` and sequence 0 when absent). -/
def append (P : Type) [Inhabited P] (f : Facet P) (store : Store P) (id : String)
    (newInboundEvents : List (Event P)) (now : JSDate) :
    Except DBError (Store P × ChangeOutput P) :=
  match getState P f.name store id with
  | some st => appendTo P f store id (some st.item) st.seq newInboundEvents now
  | none => appendTo P f store id none 0 newInboundEvents now

/-- The partition built by `Facet.records`. -/
structure RecordsOutput (P : Type) where
  state : Option (Rec P)
  inboundEvents : List (Rec P)
  outboundEvents : List (Rec P)
deriving Repr

/-- One step of the `forEach` partition in `Facet.records`: inbound
first, then outbound, then state (the last state record wins). -/
def partStep (P : Type) (acc : RecordsOutput P) (r : Rec P) : RecordsOutput P :=
  if isInboundRecord P r then
    { acc with inboundEvents := acc.inboundEvents ++ [r] }
  else if isOutboundRecord P r then
    { acc with outboundEvents := acc.outboundEvents ++ [r] }
  else if isStateRecord P r then
    { acc with state := some r }
  else acc

/-- `sortRecords`: sort event records ascending by `_seq`.  JS
`Array.prototype.sort` is stable, modelled as a stable insertion sort. -/
def insertLE (P : Type) : List (Rec P) → Rec P → List (Rec P)
  | [], r => [r]
  | x :: xs, r => if x.seq ≤ r.seq then x :: insertLE P xs r else r :: x :: xs

/-- Stable sort by `_seq` ascending. -/
def sortRecords (P : Type) (eventRecords : List (Rec P)) : List (Rec P) :=
  eventRecords.foldl (insertLE P) []

/-- `Facet.records`: query all records of the group, partition them by
record kind, and sort the inbound events ascending by sequence. -/
def recordsOf (P : Type) (f : Facet P) (store : Store P) (id : String) :
    RecordsOutput P :=
  let records := queryRecords P f.name store id
  let r0 := records.foldl (partStep P) ⟨none, [], []⟩
  { r0 with inboundEvents := sortRecords P r0.inboundEvents }

/-- `Facet.recalculate`: full-replay path — fetch and partition all the
group's records, take the previous sequence from the stored state
record (0 when absent), and recompute from a `null` state over the
complete past inbound history plus the new events. -/
def recalculate (P : Type) [Inhabited P] (f : Facet P) (store : Store P)
    (id : String) (newInboundEvents : List (Event P)) (now : JSDate) :
    Except DBError (Store P × ChangeOutput P) :=
  let records := recordsOf P f store id
  let seq := match records.state with
    | some st => st.seq
    | none => 0
  calculate P f store id none seq records.inboundEvents newInboundEvents now

/-! ## JS object semantics of `newRecord` (`src/db/index.ts`)

The structured `Rec` model above keeps the payload apart from the
envelope.  The source, however, builds each record as one JS object
literal `{_facet, _id, _seq, _rng, _typ, _ts, _date, ...item}`: the
spread comes after the envelope fields, so a payload key that collides
with an envelope field silently overrides it.  This section models
that object literal directly: an object is its ordered list of
properties (unique keys, insertion order, later assignment overrides
in place), exactly the JS semantics. -/

/-- A dynamically typed JS value (enough structure for the claims). -/
inductive JSVal where
  | str (s : String) : JSVal
  | num (n : Int) : JSVal
deriving DecidableEq, Repr

/-- An ordered property list.  A well-formed object has unique keys. -/
abbrev JSObj : Type := List (String × JSVal)

/-- Assign one property: override in place when the key exists, else
append, as in a JS object literal. -/
def objAssign (o : JSObj) (k : String) (v : JSVal) : JSObj :=
  match o with
  | [] => [(k, v)]
  | (k2, v2) :: rest =>
    if k2 == k then (k2, v) :: rest else (k2, v2) :: objAssign rest k v

/-- Evaluate a JS object literal given its textual property sequence. -/
def objLit (props : List (String × JSVal)) : JSObj :=
  props.foldl (fun o p => objAssign o p.1 p.2) []

/-- Property lookup. -/
def objGet (o : JSObj) (k : String) : Option JSVal :=
  match o.find? (fun p => p.1 == k) with
  | some p => some p.2
  | none => none

/-- The seven envelope field names. -/
def envelopeKeys : List String :=
  ["_id", "_rng", "_facet", "_typ", "_ts", "_date", "_seq"]

/-- Rest destructuring `const {_id, _rng, _facet, _typ, _ts, _date,
_seq, ...item} = e`: drop the envelope fields, keep property order. -/
def restStrip (o : JSObj) : JSObj :=
  o.filter (fun p => !(envelopeKeys.contains p.1))

/-- `newRecord` at the object level: the envelope fields in source
order followed by the payload spread. -/
def newRecordObj (facet id : String) (seq : Nat) (rng typ : String)
    (item : JSObj) (time : JSDate) : JSObj :=
  objLit
    ([("_facet", JSVal.str facet),
      ("_id", JSVal.str (facetId facet id)),
      ("_seq", JSVal.num (Int.ofNat seq)),
      ("_rng", JSVal.str rng),
      ("_typ", JSVal.str typ),
      ("_ts", JSVal.num time.ms),
      ("_date", JSVal.str time.iso)] ++ item)

/-! ## Error kinds and a well-formed group

Helper definitions used by the theorems below. -/

/-- Whether an error is the backend's (transaction cancellation), as
opposed to a JS `Error` thrown by the gateway's own code. -/
def isBackendError (e : DBError) : Bool :=
  match e with
  | DBError.canceled _ => true
  | DBError.thrown _ => false

/-- The `(_seq, _typ, payload)` triple of an inbound record. -/
def inbTriple (P : Type) (r : Rec P) : Nat × String × P := (r.seq, r.typ, r.item)

/-- The inbound triples a committed history `H` must occupy: sequences
`1 … H.length` with each event's type and payload. -/
def histTriples (P : Type) (H : List (Event P)) : List (Nat × String × P) :=
  idxMap (Event P) (Nat × String × P) (fun i e => (i + 1, e.type, e.event)) 0 H

/-- Recover the `/`-separated final segment of an outbound key as a
number (the outbound record's per-record index). -/
def outIdxOf (P : Type) (r : Rec P) : Nat :=
  parseDigits (r.rng.data.reverse.takeWhile (fun c => !(c == '/'))).reverse

/-- A group in the state that a run of committed appends with history
`H` produces: exactly one state record, holding sequence `H.length`
and the state the processor computes by replaying `H` from scratch;
inbound records occupying exactly the triples of `H` (sequences
`1 … H.length`), each keyed by its own type and sequence; and outbound
records keyed by their own type, sequence and index, all stamped at or
below sequence `H.length`. -/
def WfGroup (P : Type) [Inhabited P] [DecidableEq P] (f : Facet P)
    (store : Store P) (id : String) (H : List (Event P)) : Bool :=
  let q := queryRecords P f.name store id
  let inb := q.filter (isInboundRecord P)
  let outb := q.filter (isOutboundRecord P)
  match q.filter (isStateRecord P) with
  | [st] =>
    (st.seq == H.length) &&
    (match process P f.processor none H [] with
     | Except.ok res => st.item == res.state
     | Except.error _ => false) &&
    (@List.isPerm (Nat × String × P) instBEqOfDecidableEq
      (inb.map (inbTriple P)) (histTriples P H)) &&
    inb.all (fun r => r.rng == inboundRecordRangeKey r.typ r.seq) &&
    outb.all (fun r => decide (r.seq ≤ H.length) &&
      (r.rng == outboundRecordRangeKey r.typ r.seq (outIdxOf P r)))
  | _ => false

/-- Whether a transaction put carries the compare-and-swap condition
(`attribute_not_exists(#_id) OR #_seq = :_seq`). -/
def isCasPut (P : Type) (p : TxPut P) : Bool :=
  match p.cond with
  | WriteCond.casSeq _ => true
  | _ => false

/-- The record-shape and facet validations of `putState`, all of which
run before the size check and before any backend call. -/
def validationsPass (P : Type) (facet : String) (state : Rec P)
    (inbound outbound : List (Rec P)) : Bool :=
  isStateRecord P state && isFacet P facet state &&
    inbound.all (isInboundRecord P) && inbound.all (isFacet P facet) &&
    outbound.all (isOutboundRecord P) && outbound.all (isFacet P facet)

/-! ## Concrete fixtures used by witnesses -/

/-- A demo processor over `Nat` payloads: `ADD` adds the payload to
the state, `EMIT` adds and publishes one outbound event. -/
def demoProc : Processor Nat :=
  { rules := fun t =>
      if t = "ADD" then some (fun s e => Except.ok (s + e, []))
      else if t = "EMIT" then some (fun s e => Except.ok (s + e, [⟨"out", e⟩]))
      else none
    initial := none }

/-- A demo facet with no secondary indexes. -/
def demoFacet : Facet Nat := ⟨"ACC", demoProc, []⟩

/-- A fixed commit time. -/
def demoDate : JSDate := ⟨1000, "1970-01-01T00:00:01.000Z"⟩

/-- A later commit time. -/
def demoDate2 : JSDate := ⟨2000, "1970-01-01T00:00:02.000Z"⟩

/-- A store produced by one committed append of `ADD 5` to group
`ACC/a`: its state record (sequence 1, value 5) and one inbound
record. -/
def demoStore : Store Nat :=
  [newStateRecord Nat "ACC" "a" 1 5 demoDate,
   newInboundRecord Nat "ACC" "a" 1 "ADD" 5 demoDate]

/-- The history that produced `demoStore`. -/
def demoHist : List (Event Nat) := [⟨"ADD", 5⟩]

/-! # Theorems

## Decimal rendering and key-encoding facts -/

theorem natDigitsAux_congr (f1 : Nat) : ∀ (f2 n : Nat), n ≤ f1 → n ≤ f2 →
    natDigitsAux f1 n = natDigitsAux f2 n := by
  induction f1 using Nat.strong_induction_on with
  | _ f1 ih =>
    intro f2 n h1 h2
    match f1, f2 with
    | 0, 0 => rfl
    | 0, g + 1 =>
      have hn : n = 0 := by omega
      subst hn
      rfl
    | g + 1, 0 =>
      have hn : n = 0 := by omega
      subst hn
      rfl
    | g1 + 1, g2 + 1 =>
      show (if n < 10 then [digChar n]
          else natDigitsAux g1 (n / 10) ++ [digChar (n % 10)]) =
        (if n < 10 then [digChar n]
          else natDigitsAux g2 (n / 10) ++ [digChar (n % 10)])
      by_cases h : n < 10
      · rw [if_pos h, if_pos h]
      · rw [if_neg h, if_neg h]
        have hd : n / 10 < n := Nat.div_lt_self (by omega) (by omega)
        rw [ih g1 (by omega) g2 (n / 10) (by omega) (by omega)]

theorem natDigits_eq (n : Nat) :
    natDigits n = if n < 10 then [digChar n]
      else natDigits (n / 10) ++ [digChar (n % 10)] := by
  by_cases h : n < 10
  · rw [if_pos h]
    unfold natDigits
    match n with
    | 0 => rfl
    | m + 1 =>
      show (if m + 1 < 10 then [digChar (m + 1)]
          else natDigitsAux m ((m + 1) / 10) ++ [digChar ((m + 1) % 10)]) = _
      rw [if_pos h]
  · rw [if_neg h]
    have hn : 0 < n := by omega
    match n, hn with
    | m + 1, _ =>
      show (if m + 1 < 10 then [digChar (m + 1)]
          else natDigitsAux m ((m + 1) / 10) ++ [digChar ((m + 1) % 10)]) = _
      rw [if_neg h]
      have hd : (m + 1) / 10 < m + 1 := Nat.div_lt_self (by omega) (by omega)
      rw [natDigitsAux_congr m ((m + 1) / 10) ((m + 1) / 10) (by omega) (by omega)]
      rfl

theorem digChar_toNat (n : Nat) (h : n < 10) : (digChar n).toNat - 48 = n := by
  interval_cases n <;> decide

theorem parseDigits_append_one (l : List Char) (c : Char) :
    parseDigits (l ++ [c]) = parseDigits l * 10 + (c.toNat - 48) := by
  unfold parseDigits
  rw [List.foldl_append]
  rfl

theorem parseDigits_natDigits (n : Nat) : parseDigits (natDigits n) = n := by
  induction n using Nat.strong_induction_on with
  | _ n ih =>
    rw [natDigits_eq]
    by_cases h : n < 10
    · rw [if_pos h]
      show parseDigits ([] ++ [digChar n]) = n
      rw [parseDigits_append_one, digChar_toNat n h]
      simp [parseDigits]
    · rw [if_neg h]
      rw [parseDigits_append_one, ih (n / 10) (Nat.div_lt_self (by omega) (by omega)),
        digChar_toNat (n % 10) (Nat.mod_lt _ (by omega))]
      omega

theorem natDigits_injective : Function.Injective natDigits := by
  intro a b h
  have := parseDigits_natDigits a
  rw [h, parseDigits_natDigits] at this
  omega

theorem natStr_injective : Function.Injective natStr := by
  intro a b h
  exact natDigits_injective (congrArg String.data h)

theorem digChar_ne_slash (n : Nat) : digChar n ≠ '/' := by
  unfold digChar
  split <;> decide

theorem slash_not_mem_natDigits (n : Nat) : '/' ∉ natDigits n := by
  induction n using Nat.strong_induction_on with
  | _ n ih =>
    rw [natDigits_eq]
    by_cases h : n < 10
    · simp only [if_pos h, List.mem_singleton]
      exact fun hc => digChar_ne_slash n hc.symm
    · simp only [if_neg h, List.mem_append, List.mem_singleton]
      rintro (hc | hc)
      · exact ih (n / 10) (Nat.div_lt_self (by omega) (by omega)) hc
      · exact digChar_ne_slash (n % 10) hc.symm

theorem natStr_data (n : Nat) : (natStr n).data = natDigits n := rfl

/-! ## Slash-separated key encodings -/

/-- Splitting a char list at its final slash-free segment is unique. -/
theorem append_slash_free_inj {a₁ a₂ b₁ b₂ : List Char}
    (h₁ : '/' ∉ a₁) (h₂ : '/' ∉ a₂)
    (h : a₁ ++ '/' :: b₁ = a₂ ++ '/' :: b₂) : a₁ = a₂ ∧ b₁ = b₂ := by
  induction a₁ generalizing a₂ with
  | nil =>
    cases a₂ with
    | nil => simpa using h
    | cons c t =>
      exfalso
      rw [List.nil_append, List.cons_append] at h
      injection h with h1 h2
      exact h₂ (by rw [h1]; exact List.mem_cons_self c t)
  | cons c t ih =>
    cases a₂ with
    | nil =>
      exfalso
      rw [List.nil_append, List.cons_append] at h
      injection h with h1 h2
      exact h₁ (by rw [← h1]; exact List.mem_cons_self c t)
    | cons d u =>
      rw [List.cons_append, List.cons_append] at h
      injection h with h1 h2
      have ih2 := ih (fun hm => h₁ (List.mem_cons_of_mem c hm))
        (fun hm => h₂ (List.mem_cons_of_mem d hm)) h2
      exact ⟨by rw [h1, ih2.1], ih2.2⟩

/-- Splitting at the final slash when the suffix is slash-free is unique. -/
theorem slash_last_seg_inj {l₁ l₂ d₁ d₂ : List Char}
    (h₁ : '/' ∉ d₁) (h₂ : '/' ∉ d₂)
    (h : l₁ ++ '/' :: d₁ = l₂ ++ '/' :: d₂) : l₁ = l₂ ∧ d₁ = d₂ := by
  have hr : d₁.reverse ++ '/' :: l₁.reverse = d₂.reverse ++ '/' :: l₂.reverse := by
    have := congrArg List.reverse h
    simpa [List.reverse_append] using this
  have h₁r : '/' ∉ d₁.reverse := by simpa using h₁
  have h₂r : '/' ∉ d₂.reverse := by simpa using h₂
  have := append_slash_free_inj h₁r h₂r hr
  constructor
  · have := this.2
    simpa using congrArg List.reverse this
  · have := this.1
    simpa using congrArg List.reverse this


/-! ## Prefix tests and key-data normal forms -/

theorem charsHavePre_append_self (l r : List Char) :
    charsHavePre l (l ++ r) = true := by
  induction l with
  | nil => rfl
  | cons a as ih => simp [charsHavePre, ih]

theorem charsHavePre_cons_inv {a : Char} {as l : List Char}
    (h : charsHavePre (a :: as) l = true) :
    ∃ t, l = a :: t ∧ charsHavePre as t = true := by
  cases l with
  | nil => simp [charsHavePre] at h
  | cons b bs =>
    simp only [charsHavePre, Bool.and_eq_true, beq_iff_eq] at h
    exact ⟨bs, by rw [h.1], h.2⟩

theorem slashData : ("/" : String).data = ['/'] := rfl

theorem facetId_data (facet id : String) :
    (facetId facet id).data = facet.data ++ '/' :: id.data := by
  unfold facetId
  rw [String.data_append, String.data_append, slashData]
  simp

theorem inboundKey_data (t : String) (s : Nat) :
    (inboundRecordRangeKey t s).data =
      "INBOUND".data ++ '/' :: (t.data ++ '/' :: natDigits s) := by
  unfold inboundRecordRangeKey
  rw [String.data_append, String.data_append, String.data_append, slashData,
    natStr_data]
  have h1 : ("INBOUND/" : String).data = "INBOUND".data ++ ['/'] := rfl
  rw [h1]
  simp

theorem outboundKey_data (t : String) (s i : Nat) :
    (outboundRecordRangeKey t s i).data =
      "OUTBOUND".data ++ '/' :: (t.data ++ '/' :: (natDigits s ++ '/' :: natDigits i)) := by
  unfold outboundRecordRangeKey
  rw [String.data_append, String.data_append, String.data_append,
    String.data_append, String.data_append, slashData, natStr_data, natStr_data]
  have h1 : ("OUTBOUND/" : String).data = "OUTBOUND".data ++ ['/'] := rfl
  rw [h1]
  simp

theorem isInbound_of_inboundKey (P : Type) (r : Rec P) (t : String) (s : Nat)
    (h : r.rng = inboundRecordRangeKey t s) : isInboundRecord P r = true := by
  unfold isInboundRecord jsStartsWith
  rw [h, inboundKey_data]
  exact charsHavePre_append_self "INBOUND".data _

theorem isOutbound_of_outboundKey (P : Type) (r : Rec P) (t : String) (s i : Nat)
    (h : r.rng = outboundRecordRangeKey t s i) : isOutboundRecord P r = true := by
  unfold isOutboundRecord jsStartsWith
  rw [h, outboundKey_data]
  exact charsHavePre_append_self "OUTBOUND".data _

/-- A string starting with `INBOUND` starts with the letter I. -/
theorem head_of_inbound {s : String} (h : jsStartsWith s "INBOUND" = true) :
    ∃ t, s.data = 'I' :: t := by
  unfold jsStartsWith at h
  have hd : ("INBOUND" : String).data = 'I' :: "NBOUND".data := rfl
  rw [hd] at h
  obtain ⟨t, ht, _⟩ := charsHavePre_cons_inv h
  exact ⟨t, ht⟩

/-- A string starting with `OUTBOUND` starts with the letter O. -/
theorem head_of_outbound {s : String} (h : jsStartsWith s "OUTBOUND" = true) :
    ∃ t, s.data = 'O' :: t := by
  unfold jsStartsWith at h
  have hd : ("OUTBOUND" : String).data = 'O' :: "UTBOUND".data := rfl
  rw [hd] at h
  obtain ⟨t, ht, _⟩ := charsHavePre_cons_inv h
  exact ⟨t, ht⟩

theorem inbound_not_outbound {s : String} (h : jsStartsWith s "INBOUND" = true) :
    jsStartsWith s "OUTBOUND" = false := by
  cases hx : jsStartsWith s "OUTBOUND" with
  | false => rfl
  | true =>
    exfalso
    obtain ⟨t1, ht1⟩ := head_of_inbound h
    obtain ⟨t2, ht2⟩ := head_of_outbound hx
    rw [ht1] at ht2
    injection ht2 with h1 _
    exact absurd h1 (by decide)

theorem state_not_inbound {s : String} (h : s = "STATE") :
    jsStartsWith s "INBOUND" = false := by
  subst h
  decide

theorem state_not_outbound {s : String} (h : s = "STATE") :
    jsStartsWith s "OUTBOUND" = false := by
  subst h
  decide

theorem inbound_ne_state {s : String} (h : jsStartsWith s "INBOUND" = true) :
    s ≠ "STATE" := by
  intro he
  rw [state_not_inbound he] at h
  cases h

theorem outbound_ne_state {s : String} (h : jsStartsWith s "OUTBOUND" = true) :
    s ≠ "STATE" := by
  intro he
  rw [state_not_outbound he] at h
  cases h

/-! ## Key-encoding injectivity -/

theorem inboundKey_inj {t1 t2 : String} {s1 s2 : Nat}
    (h : inboundRecordRangeKey t1 s1 = inboundRecordRangeKey t2 s2) :
    t1 = t2 ∧ s1 = s2 := by
  have hd := congrArg String.data h
  rw [inboundKey_data, inboundKey_data] at hd
  have hd2 := List.append_cancel_left hd
  injection hd2 with _ hd3
  have := slash_last_seg_inj (slash_not_mem_natDigits s1) (slash_not_mem_natDigits s2) hd3
  exact ⟨String.ext this.1, natDigits_injective this.2⟩

theorem outboundKey_inj {t1 t2 : String} {s1 s2 i1 i2 : Nat}
    (h : outboundRecordRangeKey t1 s1 i1 = outboundRecordRangeKey t2 s2 i2) :
    t1 = t2 ∧ s1 = s2 ∧ i1 = i2 := by
  have hd := congrArg String.data h
  rw [outboundKey_data, outboundKey_data] at hd
  have hd2 := List.append_cancel_left hd
  injection hd2 with _ hd3
  have hd4 : (t1.data ++ '/' :: natDigits s1) ++ '/' :: natDigits i1 =
      (t2.data ++ '/' :: natDigits s2) ++ '/' :: natDigits i2 := by
    simpa [List.append_assoc] using hd3
  have step1 := slash_last_seg_inj (slash_not_mem_natDigits i1) (slash_not_mem_natDigits i2) hd4
  have step2 := slash_last_seg_inj (slash_not_mem_natDigits s1) (slash_not_mem_natDigits s2) step1.1
  exact ⟨String.ext step2.1, natDigits_injective step2.2, natDigits_injective step1.2⟩

/-- The inbound and outbound key spaces are disjoint. -/
theorem inboundKey_ne_outboundKey (t1 : String) (s1 : Nat) (t2 : String) (s2 i2 : Nat) :
    inboundRecordRangeKey t1 s1 ≠ outboundRecordRangeKey t2 s2 i2 := by
  intro h
  have h1 : jsStartsWith (inboundRecordRangeKey t1 s1) "INBOUND" = true := by
    unfold jsStartsWith
    rw [inboundKey_data]
    exact charsHavePre_append_self "INBOUND".data _
  have h2 : jsStartsWith (outboundRecordRangeKey t2 s2 i2) "OUTBOUND" = true := by
    unfold jsStartsWith
    rw [outboundKey_data]
    exact charsHavePre_append_self "OUTBOUND".data _
  rw [h] at h1
  rw [inbound_not_outbound h1] at h2
  cases h2

/-! ## Claim C8: the published key scheme -/

/-- C8: the record constructors produce exactly the published key
scheme — partition key `facet + "/" + id` for primary records and
`facet + "/" + indexName + "/" + indexValue` for index group ids; sort
key `"STATE"` for state records, `"INBOUND/" + type + "/" + seq` for
inbound records, `"OUTBOUND/" + type + "/" + seq + "/" + index` for
outbound records — and the classifiers `isStateRecord`,
`isInboundRecord`, `isOutboundRecord` decide the kind purely from
those prefixes of the sort key (each constructor is accepted by its
own classifier and rejected by the other two). -/
theorem claim8_key_scheme (P : Type) (facet id indexName indexValue typ : String)
    (seq index : Nat) (item : P) (time : JSDate) :
    facetId facet id = facet ++ "/" ++ id ∧
    secondaryIndexId facet indexName indexValue =
      facet ++ "/" ++ indexName ++ "/" ++ indexValue ∧
    (newStateRecord P facet id seq item time).rid = facet ++ "/" ++ id ∧
    (newStateRecord P facet id seq item time).rng = "STATE" ∧
    (newInboundRecord P facet id seq typ item time).rid = facet ++ "/" ++ id ∧
    (newInboundRecord P facet id seq typ item time).rng =
      "INBOUND/" ++ typ ++ "/" ++ natStr seq ∧
    (newOutboundRecord P facet id seq index typ item time).rid = facet ++ "/" ++ id ∧
    (newOutboundRecord P facet id seq index typ item time).rng =
      "OUTBOUND/" ++ typ ++ "/" ++ natStr seq ++ "/" ++ natStr index ∧
    (∀ r : Rec P, isStateRecord P r = (r.rng == "STATE")) ∧
    (∀ r : Rec P, isInboundRecord P r = jsStartsWith r.rng "INBOUND") ∧
    (∀ r : Rec P, isOutboundRecord P r = jsStartsWith r.rng "OUTBOUND") ∧
    isStateRecord P (newStateRecord P facet id seq item time) = true ∧
    isInboundRecord P (newStateRecord P facet id seq item time) = false ∧
    isOutboundRecord P (newStateRecord P facet id seq item time) = false ∧
    isInboundRecord P (newInboundRecord P facet id seq typ item time) = true ∧
    isStateRecord P (newInboundRecord P facet id seq typ item time) = false ∧
    isOutboundRecord P (newInboundRecord P facet id seq typ item time) = false ∧
    isOutboundRecord P (newOutboundRecord P facet id seq index typ item time) = true ∧
    isStateRecord P (newOutboundRecord P facet id seq index typ item time) = false ∧
    isInboundRecord P (newOutboundRecord P facet id seq index typ item time) = false := by
  have hinb : isInboundRecord P (newInboundRecord P facet id seq typ item time) = true :=
    isInbound_of_inboundKey P _ typ seq rfl
  have houtb : isOutboundRecord P (newOutboundRecord P facet id seq index typ item time) = true :=
    isOutbound_of_outboundKey P _ typ seq index rfl
  refine ⟨rfl, rfl, rfl, rfl, rfl, rfl, rfl, rfl, fun r => rfl, fun r => rfl, fun r => rfl,
    rfl, by show jsStartsWith "STATE" "INBOUND" = false; decide,
    by show jsStartsWith "STATE" "OUTBOUND" = false; decide, hinb, ?_, ?_, houtb, ?_, ?_⟩
  · show (inboundRecordRangeKey typ seq == "STATE") = false
    have := inbound_ne_state (s := inboundRecordRangeKey typ seq) hinb
    simpa using this
  · show jsStartsWith (inboundRecordRangeKey typ seq) "OUTBOUND" = false
    exact inbound_not_outbound hinb
  · show (outboundRecordRangeKey typ seq index == "STATE") = false
    have := outbound_ne_state (s := outboundRecordRangeKey typ seq index) houtb
    simpa using this
  · show jsStartsWith (outboundRecordRangeKey typ seq index) "INBOUND" = false
    cases hx : jsStartsWith (outboundRecordRangeKey typ seq index) "INBOUND" with
    | false => rfl
    | true =>
      exfalso
      have h2 : jsStartsWith (outboundRecordRangeKey typ seq index) "OUTBOUND" = true := houtb
      rw [inbound_not_outbound hx] at h2
      cases h2

/-! ## putState: validation, transaction shape, atomicity -/

theorem putStateTx_ok_parts (P : Type) (facet : String) (state : Rec P) (prev : Nat)
    (inb outb idx : List (Rec P)) (items : List (TxPut P))
    (h : putStateTx P facet state prev inb outb idx = Except.ok items) :
    items = putStateItems P state prev inb outb idx ∧
    validationsPass P facet state inb outb = true ∧
    idx.length + outb.length + inb.length + 1 ≤ 25 := by
  unfold putStateTx at h
  split_ifs at h with h1 h2 h3 h4 h5 h6 h7
  all_goals simp only [Except.ok.injEq] at h
  refine ⟨h.symm, ?_, by omega⟩
  simp only [validationsPass, Bool.and_eq_true, List.all_eq_true]
  refine ⟨⟨⟨⟨⟨?_, ?_⟩, ?_⟩, ?_⟩, ?_⟩, ?_⟩ <;> simp_all [List.any_eq_true]

theorem putStateTx_ok_of_valid (P : Type) (facet : String) (state : Rec P) (prev : Nat)
    (inb outb idx : List (Rec P))
    (hv : validationsPass P facet state inb outb = true)
    (hn : idx.length + outb.length + inb.length + 1 ≤ 25) :
    putStateTx P facet state prev inb outb idx =
      Except.ok (putStateItems P state prev inb outb idx) := by
  simp only [validationsPass, Bool.and_eq_true, List.all_eq_true] at hv
  obtain ⟨⟨⟨⟨⟨h1, h2⟩, h3⟩, h4⟩, h5⟩, h6⟩ := hv
  unfold putStateTx
  rw [if_neg, if_neg, if_neg, if_neg, if_neg, if_neg, if_neg]
  all_goals first
  | omega
  | simp_all [List.any_eq_true]

theorem putStateTx_error_of_large (P : Type) (facet : String) (state : Rec P)
    (prev : Nat) (inb outb idx : List (Rec P))
    (hn : idx.length + outb.length + inb.length + 1 > 25) :
    ∃ msg, putStateTx P facet state prev inb outb idx = Except.error msg := by
  cases hx : putStateTx P facet state prev inb outb idx with
  | error m => exact ⟨m, rfl⟩
  | ok items =>
    have := (putStateTx_ok_parts P facet state prev inb outb idx items hx).2.2
    omega

theorem putStateTx_large_msg (P : Type) (facet : String) (state : Rec P)
    (prev : Nat) (inb outb idx : List (Rec P))
    (hv : validationsPass P facet state inb outb = true)
    (hn : idx.length + outb.length + inb.length + 1 > 25) :
    putStateTx P facet state prev inb outb idx =
      Except.error (tooLargeMsg (idx.length + outb.length + inb.length + 1)) := by
  simp only [validationsPass, Bool.and_eq_true, List.all_eq_true] at hv
  obtain ⟨⟨⟨⟨⟨h1, h2⟩, h3⟩, h4⟩, h5⟩, h6⟩ := hv
  unfold putStateTx
  rw [if_neg, if_neg, if_neg, if_neg, if_neg, if_neg, if_pos hn]
  all_goals simp_all [List.any_eq_true]

theorem putState_canceled_of_condFail (P : Type) (facet : String) (store : Store P)
    (state : Rec P) (prev : Nat) (inb outb idx : List (Rec P))
    (items : List (TxPut P)) (p : TxPut P)
    (h : putStateTx P facet state prev inb outb idx = Except.ok items)
    (hp : p ∈ items) (hc : condOk P store p = false) :
    putState P facet store state prev inb outb idx =
      Except.error (DBError.canceled (items.map (fun q => !condOk P store q))) ∧
    putStateResultStore P facet store state prev inb outb idx = store := by
  have hall : items.all (condOk P store) = false := by
    cases hq : items.all (condOk P store) with
    | true =>
      have := List.all_eq_true.mp hq p hp
      rw [hc] at this
      cases this
    | false => rfl
  have he : putState P facet store state prev inb outb idx =
      Except.error (DBError.canceled (items.map (fun q => !condOk P store q))) := by
    unfold putState
    rw [h]
    show commitTx P store items = _
    unfold commitTx
    rw [hall]
    simp
  refine ⟨he, ?_⟩
  unfold putStateResultStore
  rw [he]

theorem filter_cas_map_putItem (P : Type) (l : List (Rec P)) :
    (l.map (createPutItem P)).filter (isCasPut P) = [] := by
  induction l with
  | nil => rfl
  | cons a as ih => simp [createPutItem, isCasPut, ih]

theorem filter_cas_map_putIdx (P : Type) (l : List (Rec P)) :
    (l.map (createPutSecondaryIndex P)).filter (isCasPut P) = [] := by
  induction l with
  | nil => rfl
  | cons a as ih => simp [createPutSecondaryIndex, isCasPut, ih]

theorem state_rng_of_valid (P : Type) (facet : String) (state : Rec P)
    (inb outb : List (Rec P))
    (hv : validationsPass P facet state inb outb = true) : state.rng = "STATE" := by
  simp only [validationsPass, Bool.and_eq_true] at hv
  have := hv.1.1.1.1.1
  unfold isStateRecord at this
  exact beq_iff_eq.mp this

/-! ## Claim C1: the compare-and-swap state put -/

/-- C1: a successfully validated `putState` transaction contains
exactly one put carrying the compare-and-swap condition, and it is the
state record put with condition "no record exists at the group's STATE
key, or the stored record's sequence equals `previousSeq`"; whenever
that condition fails against the current table, the whole transaction
is rejected as a cancellation and the table is unchanged — none of the
supplied records is written. -/
theorem claim1_state_cas_put (P : Type) (facet : String) (state : Rec P)
    (prev : Nat) (inb outb idx : List (Rec P)) (items : List (TxPut P))
    (h : putStateTx P facet state prev inb outb idx = Except.ok items) :
    items.filter (isCasPut P) = [⟨state, WriteCond.casSeq prev⟩] ∧
    state.rng = "STATE" ∧
    (∀ store : Store P, condOk P store (createPutState P state prev) = true ↔
      (storeGet P store state.rid "STATE" = none ∨
        ∃ r0, storeGet P store state.rid "STATE" = some r0 ∧ r0.seq = prev)) ∧
    (∀ store : Store P, condOk P store (createPutState P state prev) = false →
      (∃ reasons, putState P facet store state prev inb outb idx =
          Except.error (DBError.canceled reasons)) ∧
      putStateResultStore P facet store state prev inb outb idx = store) := by
  obtain ⟨hi, hv, _⟩ := putStateTx_ok_parts P facet state prev inb outb idx items h
  have hrng := state_rng_of_valid P facet state inb outb hv
  refine ⟨?_, hrng, ?_, ?_⟩
  · rw [hi]
    unfold putStateItems
    rw [List.filter_append, List.filter_append, List.filter_append,
      filter_cas_map_putItem, filter_cas_map_putItem, filter_cas_map_putIdx]
    rfl
  · intro store
    have hck : condOk P store (createPutState P state prev) =
        (match storeGet P store state.rid "STATE" with
          | none => true
          | some r0 => r0.seq == prev) := by
      unfold condOk createPutState
      rw [hrng]
    rw [hck]
    cases hg : storeGet P store state.rid "STATE" with
    | none => simp
    | some r0 =>
      show (r0.seq == prev) = true ↔ _
      simp only [beq_iff_eq]
      constructor
      · intro he
        exact Or.inr ⟨r0, rfl, he⟩
      · rintro (hn | ⟨r1, hr1, hs⟩)
        · simp at hn
        · injection hr1 with hr1
          rw [← hr1] at hs
          exact hs
  · intro store hc
    have hmem : createPutState P state prev ∈ items := by
      rw [hi]
      unfold putStateItems
      simp
    have := putState_canceled_of_condFail P facet store state prev inb outb idx items
      (createPutState P state prev) h hmem hc
    exact ⟨⟨_, this.1⟩, this.2⟩

/-- C1 witness: a concrete conflicting commit (stored sequence 1,
claimed previous sequence 0) is cancelled and leaves the table
unchanged. -/
theorem claim1_state_cas_put_witness :
    (putStateItems Nat (newStateRecord Nat "ACC" "a" 3 9 demoDate2) 0 [] [] []).filter
        (isCasPut Nat) =
      [⟨newStateRecord Nat "ACC" "a" 3 9 demoDate2, WriteCond.casSeq 0⟩] ∧
    putStateResultStore Nat "ACC" demoStore (newStateRecord Nat "ACC" "a" 3 9 demoDate2)
        0 [] [] [] = demoStore := by
  have h := claim1_state_cas_put Nat "ACC" (newStateRecord Nat "ACC" "a" 3 9 demoDate2)
    0 [] [] [] (putStateItems Nat (newStateRecord Nat "ACC" "a" 3 9 demoDate2) 0 [] [] [])
    (by rfl)
  exact ⟨h.1, (h.2.2.2 demoStore (by decide)).2⟩

/-! ## Claim C2: inbound/outbound guarded, index unconditional -/

/-- C2: the validated transaction is exactly one conditional put per
inbound record and per outbound record (condition: no record exists at
the key), one unconditional put per secondary-index record (last write
wins), and the state put; consequently a commit that includes an
inbound or outbound record whose key is already occupied is cancelled
as a whole and the table is unchanged — an inbound or outbound record,
once written, is never overwritten through these write paths. -/
theorem claim2_event_guards (P : Type) (facet : String) (state : Rec P)
    (prev : Nat) (inb outb idx : List (Rec P)) (items : List (TxPut P))
    (h : putStateTx P facet state prev inb outb idx = Except.ok items) :
    items = inb.map (createPutItem P) ++ outb.map (createPutItem P) ++
      idx.map (createPutSecondaryIndex P) ++ [createPutState P state prev] ∧
    (∀ r ∈ inb, (⟨r, WriteCond.notExists⟩ : TxPut P) ∈ items) ∧
    (∀ r ∈ outb, (⟨r, WriteCond.notExists⟩ : TxPut P) ∈ items) ∧
    (∀ r ∈ idx, (⟨r, WriteCond.uncond⟩ : TxPut P) ∈ items) ∧
    (∀ (store : Store P) (r : Rec P), r ∈ inb ∨ r ∈ outb →
      storeGet P store r.rid r.rng ≠ none →
      (∃ reasons, putState P facet store state prev inb outb idx =
          Except.error (DBError.canceled reasons)) ∧
      putStateResultStore P facet store state prev inb outb idx = store) := by
  obtain ⟨hi, _, _⟩ := putStateTx_ok_parts P facet state prev inb outb idx items h
  have hmemInb : ∀ r ∈ inb, (⟨r, WriteCond.notExists⟩ : TxPut P) ∈ items := by
    intro r hr
    rw [hi]
    unfold putStateItems
    simp only [List.mem_append, List.mem_map]
    exact Or.inl (Or.inl (Or.inl ⟨r, hr, rfl⟩))
  have hmemOutb : ∀ r ∈ outb, (⟨r, WriteCond.notExists⟩ : TxPut P) ∈ items := by
    intro r hr
    rw [hi]
    unfold putStateItems
    simp only [List.mem_append, List.mem_map]
    exact Or.inl (Or.inl (Or.inr ⟨r, hr, rfl⟩))
  refine ⟨hi, hmemInb, hmemOutb, ?_, ?_⟩
  · intro r hr
    rw [hi]
    unfold putStateItems
    simp only [List.mem_append, List.mem_map]
    exact Or.inl (Or.inr ⟨r, hr, rfl⟩)
  · intro store r hr hocc
    have hmem : (⟨r, WriteCond.notExists⟩ : TxPut P) ∈ items := by
      cases hr with
      | inl hr => exact hmemInb r hr
      | inr hr => exact hmemOutb r hr
    have hcond : condOk P store (⟨r, WriteCond.notExists⟩ : TxPut P) = false := by
      show (storeGet P store r.rid r.rng).isNone = false
      cases hg : storeGet P store r.rid r.rng with
      | none => exact absurd hg hocc
      | some r0 => rfl
    have := putState_canceled_of_condFail P facet store state prev inb outb idx items
      (⟨r, WriteCond.notExists⟩ : TxPut P) h hmem hcond
    exact ⟨⟨_, this.1⟩, this.2⟩

/-- C2 witness: re-appending over the existing inbound record of
`demoStore` is cancelled and the table is unchanged. -/
theorem claim2_event_guards_witness :
    ((⟨newInboundRecord Nat "ACC" "a" 1 "ADD" 5 demoDate, WriteCond.notExists⟩ : TxPut Nat) ∈
      putStateItems Nat (newStateRecord Nat "ACC" "a" 1 9 demoDate2) 1
        [newInboundRecord Nat "ACC" "a" 1 "ADD" 5 demoDate] [] []) ∧
    putStateResultStore Nat "ACC" demoStore (newStateRecord Nat "ACC" "a" 1 9 demoDate2) 1
      [newInboundRecord Nat "ACC" "a" 1 "ADD" 5 demoDate] [] [] = demoStore := by
  have h := claim2_event_guards Nat "ACC" (newStateRecord Nat "ACC" "a" 1 9 demoDate2) 1
    [newInboundRecord Nat "ACC" "a" 1 "ADD" 5 demoDate] [] []
    (putStateItems Nat (newStateRecord Nat "ACC" "a" 1 9 demoDate2) 1
      [newInboundRecord Nat "ACC" "a" 1 "ADD" 5 demoDate] [] [])
    (by rfl)
  refine ⟨h.2.1 _ (by simp), ?_⟩
  exact (h.2.2.2.2 demoStore (newInboundRecord Nat "ACC" "a" 1 "ADD" 5 demoDate)
    (Or.inl (by simp)) (by decide)).2

/-! ## Claim C5: the 25-item transaction bound -/

/-- C5: when the total record count (state + inbound + outbound +
index) exceeds 25, `putState` throws a JS error before any backend
call, for every table state the table is unchanged; when the total is
25 or fewer, the size check passes: with the shape validations
satisfied, `putState` proceeds to build the full transaction. -/
theorem claim5_transaction_bound (P : Type) (facet : String) (state : Rec P)
    (prev : Nat) (inb outb idx : List (Rec P)) :
    (1 + inb.length + outb.length + idx.length > 25 →
      ∃ msg, ∀ store : Store P,
        putState P facet store state prev inb outb idx =
          Except.error (DBError.thrown msg) ∧
        putStateResultStore P facet store state prev inb outb idx = store) ∧
    (1 + inb.length + outb.length + idx.length ≤ 25 →
      validationsPass P facet state inb outb = true →
      putStateTx P facet state prev inb outb idx =
        Except.ok (putStateItems P state prev inb outb idx)) := by
  constructor
  · intro hn
    obtain ⟨msg, hmsg⟩ := putStateTx_error_of_large P facet state prev inb outb idx
      (by omega)
    refine ⟨msg, fun store => ?_⟩
    have he : putState P facet store state prev inb outb idx =
        Except.error (DBError.thrown msg) := by
      unfold putState
      rw [hmsg]
    refine ⟨he, ?_⟩
    unfold putStateResultStore
    rw [he]
  · intro hn hv
    exact putStateTx_ok_of_valid P facet state prev inb outb idx hv (by omega)

/-- C5 witness: 26 index records overflow the bound and leave the
table unchanged; with none, the size check passes. -/
theorem claim5_transaction_bound_witness :
    (∃ msg, putState Nat "ACC" demoStore (newStateRecord Nat "ACC" "a" 1 5 demoDate) 1
        [] [] (List.replicate 26 (newStateRecord Nat "ACC" "a" 1 5 demoDate)) =
      Except.error (DBError.thrown msg)) ∧
    putStateResultStore Nat "ACC" demoStore (newStateRecord Nat "ACC" "a" 1 5 demoDate) 1
      [] [] (List.replicate 26 (newStateRecord Nat "ACC" "a" 1 5 demoDate)) = demoStore ∧
    putStateTx Nat "ACC" (newStateRecord Nat "ACC" "a" 1 5 demoDate) 1 [] [] [] =
      Except.ok (putStateItems Nat (newStateRecord Nat "ACC" "a" 1 5 demoDate) 1 [] [] []) := by
  have h := claim5_transaction_bound Nat "ACC" (newStateRecord Nat "ACC" "a" 1 5 demoDate)
    1 [] [] (List.replicate 26 (newStateRecord Nat "ACC" "a" 1 5 demoDate))
  obtain ⟨msg, hmsg⟩ := h.1 (by simp)
  refine ⟨⟨msg, (hmsg demoStore).1⟩, (hmsg demoStore).2, ?_⟩
  have h2 := claim5_transaction_bound Nat "ACC" (newStateRecord Nat "ACC" "a" 1 5 demoDate)
    1 [] [] []
  exact h2.2 (by simp) (by decide)

/-! ## Claim C9 (corrected): how putState failures are surfaced -/

/-- C9 counterexample: at a concrete sequence-mismatch (stored
sequence 1, claimed previous sequence 0) `putState` surfaces the raw
backend transaction-cancellation — a backend error, not a distinct
`OptimisticConcurrencyConflict` kind — while the size violation and a
shape-validation failure are both surfaced as the same thrown-`Error`
kind, distinguished only by message text (no `TransactionTooLarge`
kind exists). -/
theorem claim9_counterexample :
    putState Nat "ACC" demoStore (newStateRecord Nat "ACC" "a" 3 9 demoDate2) 0 [] [] [] =
      Except.error (DBError.canceled [true]) ∧
    isBackendError (DBError.canceled [true]) = true ∧
    putState Nat "ACC" demoStore (newStateRecord Nat "ACC" "a" 1 9 demoDate2) 1 [] []
        (List.replicate 26 (newStateRecord Nat "ACC" "a" 1 9 demoDate2)) =
      Except.error (DBError.thrown (tooLargeMsg 27)) ∧
    putState Nat "ACC" demoStore (newInboundRecord Nat "ACC" "a" 2 "ADD" 9 demoDate2)
        1 [] [] [] =
      Except.error (DBError.thrown "putState: invalid state record") ∧
    isBackendError (DBError.thrown (tooLargeMsg 27)) = false ∧
    isBackendError (DBError.thrown "putState: invalid state record") = false := by
  refine ⟨by rfl, rfl, by rfl, by rfl, rfl, rfl⟩

/-- C9 amended: every pre-I/O failure of `putState` (shape/facet
validation and the size check) is surfaced as a thrown JS `Error`
carrying the validation message — one kind, distinguished only by
message text — while every conditional-write rejection, the
sequence-mismatch included, propagates unwrapped as the backend's
transaction-cancellation error. -/
theorem claim9_error_surfacing (P : Type) (facet : String) (store : Store P)
    (state : Rec P) (prev : Nat) (inb outb idx : List (Rec P)) :
    (∀ msg, putStateTx P facet state prev inb outb idx = Except.error msg →
      putState P facet store state prev inb outb idx =
        Except.error (DBError.thrown msg) ∧
      isBackendError (DBError.thrown msg) = false) ∧
    (∀ items, putStateTx P facet state prev inb outb idx = Except.ok items →
      items.all (condOk P store) = false →
      putState P facet store state prev inb outb idx =
        Except.error (DBError.canceled (items.map (fun q => !condOk P store q))) ∧
      isBackendError (DBError.canceled (items.map (fun q => !condOk P store q))) = true) := by
  constructor
  · intro msg hmsg
    constructor
    · unfold putState
      rw [hmsg]
    · rfl
  · intro items hok hall
    constructor
    · unfold putState
      rw [hok]
      show commitTx P store items = _
      unfold commitTx
      rw [hall]
      simp
    · rfl

/-- C9 amended witness: the two surfacing modes at concrete inputs. -/
theorem claim9_error_surfacing_witness :
    putState Nat "ACC" demoStore (newInboundRecord Nat "ACC" "a" 2 "ADD" 9 demoDate2)
        1 [] [] [] =
      Except.error (DBError.thrown "putState: invalid state record") ∧
    putState Nat "ACC" demoStore (newStateRecord Nat "ACC" "a" 3 9 demoDate2) 0 [] [] [] =
      Except.error (DBError.canceled [true]) := by
  have h := claim9_error_surfacing Nat "ACC" demoStore
    (newInboundRecord Nat "ACC" "a" 2 "ADD" 9 demoDate2) 1 [] [] []
  have h2 := claim9_error_surfacing Nat "ACC" demoStore
    (newStateRecord Nat "ACC" "a" 3 9 demoDate2) 0 [] [] []
  refine ⟨(h.1 "putState: invalid state record" (by rfl)).1, ?_⟩
  have := (h2.2 [⟨newStateRecord Nat "ACC" "a" 3 9 demoDate2, WriteCond.casSeq 0⟩]
    (by rfl) (by decide)).1
  exact this

/-! ## idxMap and calcRecords structure -/

theorem idxMap_length (A B : Type) (f : Nat → A → B) :
    ∀ (i : Nat) (l : List A), (idxMap A B f i l).length = l.length := by
  intro i l
  induction l generalizing i with
  | nil => rfl
  | cons x xs ih => simp [idxMap, ih]

theorem idxMap_getElem (A B : Type) (f : Nat → A → B) :
    ∀ (i : Nat) (l : List A) (j : Nat),
      (idxMap A B f i l)[j]? = (l[j]?).map (f (i + j)) := by
  intro i l
  induction l generalizing i with
  | nil => intro j; rfl
  | cons x xs ih =>
    intro j
    cases j with
    | zero => simp [idxMap]
    | succ j2 =>
      simp only [idxMap, List.getElem?_cons_succ]
      rw [ih (i + 1) j2]
      have harith : i + 1 + j2 = i + (j2 + 1) := by omega
      rw [harith]

theorem idxMap_mem_iff (A B : Type) (f : Nat → A → B) :
    ∀ (i : Nat) (l : List A) (b : B),
      b ∈ idxMap A B f i l ↔ ∃ j, ∃ h : j < l.length, b = f (i + j) (l.get ⟨j, h⟩) := by
  intro i l
  induction l generalizing i with
  | nil => intro b; simp [idxMap]
  | cons x xs ih =>
    intro b
    simp only [idxMap, List.mem_cons, ih (i + 1) b]
    constructor
    · rintro (hb | ⟨j, hj, hb⟩)
      · exact ⟨0, by simp, by simpa using hb⟩
      · refine ⟨j + 1, by simp only [List.length_cons]; omega, ?_⟩
        have harith : i + (j + 1) = i + 1 + j := by omega
        rw [harith]
        exact hb
    · rintro ⟨j, hj, hb⟩
      cases j with
      | zero => exact Or.inl (by simpa using hb)
      | succ j2 =>
        have hj2 : j2 < xs.length := by simp only [List.length_cons] at hj; omega
        refine Or.inr ⟨j2, hj2, ?_⟩
        have harith : i + 1 + j2 = i + (j2 + 1) := by omega
        rw [harith]
        exact hb

theorem calcRecords_ok_parts (P : Type) [Inhabited P] (f : Facet P) (id : String)
    (state : Option P) (seq : Nat) (pastInbound : List (Rec P))
    (newEvents : List (Event P)) (now : JSDate) (c : CalcRecords P)
    (hc : calcRecords P f id state seq pastInbound newEvents now = Except.ok c) :
    ∃ res, process P f.processor state (mapPastInboundRecordToEvent P pastInbound)
        newEvents = Except.ok res ∧
      c.stateRecord = newStateRecord P f.name id (seq + newEvents.length) res.state now ∧
      c.newInboundRecords = idxMap (Event P) (Rec P)
        (fun i e => newInboundRecord P f.name id (seq + 1 + i) e.type e.event now)
        0 newEvents ∧
      c.newOutboundRecords = idxMap (Event P) (Rec P)
        (fun i e => newOutboundRecord P f.name id (seq + newEvents.length) i e.type e.event now)
        0 res.newOutboundEvents ∧
      c.indexRecords = f.indexStateFuncs.filterMap
        (fun sif => sif c.stateRecord) ∧
      c.output = ⟨c.stateRecord.seq, res.state, res.pastOutboundEvents,
        res.newOutboundEvents⟩ := by
  simp only [calcRecords] at hc
  split at hc
  · cases hc
  · rename_i res heq
    simp only [Except.ok.injEq] at hc
    exact ⟨res, heq, by rw [← hc], by rw [← hc], by rw [← hc], by rw [← hc],
      by rw [← hc]⟩

/-- With no new events, a successful `process` publishes no new
outbound events (modelled from the spec). -/
theorem process_nil_new (P : Type) [Inhabited P] (proc : Processor P)
    (state : Option P) (past : List (Event P)) (res : ProcessResult P)
    (hp : process P proc state past [] = Except.ok res) :
    res.newOutboundEvents = [] := by
  unfold process at hp
  cases hr : runEvents P proc (startOf P proc state) past with
  | error m =>
    rw [hr] at hp
    cases hp
  | ok pr =>
    obtain ⟨s1, pout⟩ := pr
    rw [hr] at hp
    have h2 : runEvents P proc s1 [] = Except.ok (s1, ([] : List (Event P))) := rfl
    dsimp only at hp
    rw [h2] at hp
    simp only [Except.ok.injEq] at hp
    rw [← hp]

/-! ## Claim C3: outbound records come only from newOutboundEvents -/

/-- C3: `calculate` (the shared path of `append`, `appendTo` and
`recalculate`) builds its outbound records exclusively from the
processor result's `newOutboundEvents` — one record per element, in
order — never from `pastOutboundEvents`; in particular a pure-replay
call (no new events) commits no outbound record even when the replay
reports past outbound events. -/
theorem claim3_outbound_only_new (P : Type) [Inhabited P] (f : Facet P) (id : String)
    (state : Option P) (seq : Nat) (pastInbound : List (Rec P))
    (newEvents : List (Event P)) (now : JSDate) (c : CalcRecords P)
    (hc : calcRecords P f id state seq pastInbound newEvents now = Except.ok c) :
    (∃ res, process P f.processor state (mapPastInboundRecordToEvent P pastInbound)
        newEvents = Except.ok res ∧
      c.newOutboundRecords = idxMap (Event P) (Rec P)
        (fun i e => newOutboundRecord P f.name id (seq + newEvents.length) i e.type e.event now)
        0 res.newOutboundEvents ∧
      c.output.newOutboundEvents = res.newOutboundEvents ∧
      c.output.pastOutboundEvents = res.pastOutboundEvents ∧
      (∀ r ∈ c.newOutboundRecords, ∃ j, ∃ h : j < res.newOutboundEvents.length,
        r = newOutboundRecord P f.name id (seq + newEvents.length) j
          (res.newOutboundEvents.get ⟨j, h⟩).type
          (res.newOutboundEvents.get ⟨j, h⟩).event now)) ∧
    (newEvents = [] → c.newOutboundRecords = []) := by
  obtain ⟨res, hp, hst, hinb, houtb, hidx, hout⟩ :=
    calcRecords_ok_parts P f id state seq pastInbound newEvents now c hc
  constructor
  · refine ⟨res, hp, houtb, by rw [hout], by rw [hout], ?_⟩
    intro r hr
    rw [houtb] at hr
    obtain ⟨j, hj, hb⟩ := (idxMap_mem_iff (Event P) (Rec P) _ 0 res.newOutboundEvents r).mp hr
    refine ⟨j, hj, ?_⟩
    simpa using hb
  · intro hnil
    subst hnil
    have := process_nil_new P f.processor state
      (mapPastInboundRecordToEvent P pastInbound) res hp
    rw [houtb, this]
    rfl

/-- C3 witness: a pure replay over one past `EMIT` inbound record
reports the past outbound event but builds no outbound record. -/
theorem claim3_outbound_only_new_witness :
    calcRecords Nat demoFacet "a" none 1
        [newInboundRecord Nat "ACC" "a" 1 "EMIT" 5 demoDate] [] demoDate2 =
      Except.ok
        ⟨newStateRecord Nat "ACC" "a" 1 5 demoDate2, [], [], [],
          ⟨1, 5, [⟨"out", 5⟩], []⟩⟩ ∧
    (⟨newStateRecord Nat "ACC" "a" 1 5 demoDate2, [], [], [],
        ⟨1, 5, [⟨"out", 5⟩], []⟩⟩ : CalcRecords Nat).newOutboundRecords = [] := by
  have hc : calcRecords Nat demoFacet "a" none 1
      [newInboundRecord Nat "ACC" "a" 1 "EMIT" 5 demoDate] [] demoDate2 =
    Except.ok
      ⟨newStateRecord Nat "ACC" "a" 1 5 demoDate2, [], [], [],
        ⟨1, 5, [⟨"out", 5⟩], []⟩⟩ := rfl
  have h := claim3_outbound_only_new Nat demoFacet "a" none 1
    [newInboundRecord Nat "ACC" "a" 1 "EMIT" 5 demoDate] [] demoDate2 _ hc
  exact ⟨hc, h.2 rfl⟩

/-! ## Claim C4: sequence assignment and key uniqueness -/

theorem outKey_idxMap_nodup (P : Type) (name id : String) (sq : Nat) (now : JSDate) :
    ∀ (l : List (Event P)) (i : Nat),
      ((idxMap (Event P) (Rec P)
        (fun i e => newOutboundRecord P name id sq i e.type e.event now) i l).map
          (fun r => r.rng)).Nodup := by
  intro l
  induction l with
  | nil => intro i; simp [idxMap]
  | cons x xs ih =>
    intro i
    simp only [idxMap, List.map_cons, List.nodup_cons]
    refine ⟨?_, ih (i + 1)⟩
    intro hmem
    obtain ⟨r, hr, hrng⟩ := List.mem_map.mp hmem
    obtain ⟨j, hj, hb⟩ := (idxMap_mem_iff (Event P) (Rec P) _ (i + 1) xs r).mp hr
    have heq : outboundRecordRangeKey r.typ sq (i + 1 + j) =
        outboundRecordRangeKey x.type sq i := by
      rw [hb]
      rw [hb] at hrng
      exact hrng
    have := (outboundKey_inj heq).2.2
    omega

/-- C4: a `calculate` call that starts from previous sequence `seq`
and supplies `k` new inbound events assigns sequences `seq+1 … seq+k`
to the new inbound records in order, stamps the new state record with
sequence `seq+k` exactly, and stamps every outbound record it builds
with sequence `seq+k` plus a per-record index `0, 1, …` that makes the
outbound sort keys pairwise distinct. -/
theorem claim4_sequence_assignment (P : Type) [Inhabited P] (f : Facet P) (id : String)
    (state : Option P) (seq : Nat) (pastInbound : List (Rec P))
    (newEvents : List (Event P)) (now : JSDate) (c : CalcRecords P)
    (hc : calcRecords P f id state seq pastInbound newEvents now = Except.ok c) :
    c.stateRecord.seq = seq + newEvents.length ∧
    c.newInboundRecords.length = newEvents.length ∧
    (∀ j : Nat, c.newInboundRecords[j]? =
      (newEvents[j]?).map
        (fun e => newInboundRecord P f.name id (seq + 1 + j) e.type e.event now)) ∧
    (∀ r ∈ c.newOutboundRecords, r.seq = seq + newEvents.length) ∧
    (c.newOutboundRecords.map (fun r => r.rng)).Nodup := by
  obtain ⟨res, hp, hst, hinb, houtb, hidx, hout⟩ :=
    calcRecords_ok_parts P f id state seq pastInbound newEvents now c hc
  refine ⟨by rw [hst]; rfl, ?_, ?_, ?_, ?_⟩
  · rw [hinb, idxMap_length]
  · intro j
    rw [hinb, idxMap_getElem]
    simp only [Nat.zero_add]
  · intro r hr
    rw [houtb] at hr
    obtain ⟨j, hj, hb⟩ := (idxMap_mem_iff (Event P) (Rec P) _ 0 res.newOutboundEvents r).mp hr
    rw [hb]
    rfl
  · rw [houtb]
    exact outKey_idxMap_nodup P f.name id (seq + newEvents.length) now
      res.newOutboundEvents 0

/-- C4 witness: appending `ADD 2` then `EMIT 3` at previous sequence 1
yields inbound sequences 2 and 3, state sequence 3, and one outbound
record stamped `(3, 0)`. -/
theorem claim4_sequence_assignment_witness :
    (newStateRecord Nat "ACC" "a" 3 10 demoDate2).seq = 1 + 2 ∧
    ([newInboundRecord Nat "ACC" "a" 2 "ADD" 2 demoDate2,
      newInboundRecord Nat "ACC" "a" 3 "EMIT" 3 demoDate2].length = 2) ∧
    (∀ r ∈ [newOutboundRecord Nat "ACC" "a" 3 0 "out" 3 demoDate2], r.seq = 1 + 2) ∧
    ([newOutboundRecord Nat "ACC" "a" 3 0 "out" 3 demoDate2].map (fun r => r.rng)).Nodup := by
  have hc : calcRecords Nat demoFacet "a" (some 5) 1 []
      [⟨"ADD", 2⟩, ⟨"EMIT", 3⟩] demoDate2 =
    Except.ok
      ⟨newStateRecord Nat "ACC" "a" 3 10 demoDate2,
        [newInboundRecord Nat "ACC" "a" 2 "ADD" 2 demoDate2,
          newInboundRecord Nat "ACC" "a" 3 "EMIT" 3 demoDate2],
        [newOutboundRecord Nat "ACC" "a" 3 0 "out" 3 demoDate2], [],
        ⟨3, 10, [], [⟨"out", 3⟩]⟩⟩ := rfl
  have h := claim4_sequence_assignment Nat demoFacet "a" (some 5) 1 []
    [⟨"ADD", 2⟩, ⟨"EMIT", 3⟩] demoDate2 _ hc
  exact ⟨h.1, h.2.1, h.2.2.2.1, h.2.2.2.2⟩

/-! ## sortRecords: stable sort by sequence -/

theorem insertLE_perm (P : Type) (l : List (Rec P)) (r : Rec P) :
    (insertLE P l r).Perm (r :: l) := by
  induction l with
  | nil => exact List.Perm.refl _
  | cons x xs ih =>
    unfold insertLE
    by_cases h : x.seq ≤ r.seq
    · rw [if_pos h]
      exact (ih.cons x).trans (List.Perm.swap r x xs)
    · rw [if_neg h]

theorem sortRecords_perm (P : Type) (l : List (Rec P)) :
    (sortRecords P l).Perm l := by
  have haux : ∀ (l2 acc : List (Rec P)), (l2.foldl (insertLE P) acc).Perm (acc ++ l2) := by
    intro l2
    induction l2 with
    | nil => intro acc; simp
    | cons x xs ih =>
      intro acc
      have h1 := ih (insertLE P acc x)
      have h2 : (insertLE P acc x ++ xs).Perm ((x :: acc) ++ xs) :=
        (insertLE_perm P acc x).append_right xs
      have h3 : ((x :: acc) ++ xs).Perm (acc ++ x :: xs) := List.perm_middle.symm
      exact (h1.trans h2).trans h3
  simpa using haux l []

theorem insertLE_sorted (P : Type) (l : List (Rec P)) (r : Rec P)
    (h : List.Sorted (fun a b : Rec P => a.seq ≤ b.seq) l) :
    List.Sorted (fun a b : Rec P => a.seq ≤ b.seq) (insertLE P l r) := by
  induction l with
  | nil => simp [insertLE]
  | cons x xs ih =>
    rw [List.sorted_cons] at h
    unfold insertLE
    by_cases hle : x.seq ≤ r.seq
    · rw [if_pos hle]
      rw [List.sorted_cons]
      refine ⟨?_, ih h.2⟩
      intro b hb
      have := (insertLE_perm P xs r).mem_iff.mp hb
      cases List.mem_cons.mp this with
      | inl hbr => rw [hbr]; exact hle
      | inr hbx => exact h.1 b hbx
    · rw [if_neg hle]
      rw [List.sorted_cons]
      refine ⟨?_, List.sorted_cons.mpr h⟩
      intro b hb
      cases List.mem_cons.mp hb with
      | inl hbx => rw [hbx]; omega
      | inr hbxs =>
        have := h.1 b hbxs
        omega

theorem sortRecords_sorted (P : Type) (l : List (Rec P)) :
    List.Sorted (fun a b : Rec P => a.seq ≤ b.seq) (sortRecords P l) := by
  have haux : ∀ (l2 acc : List (Rec P)),
      List.Sorted (fun a b : Rec P => a.seq ≤ b.seq) acc →
      List.Sorted (fun a b : Rec P => a.seq ≤ b.seq) (l2.foldl (insertLE P) acc) := by
    intro l2
    induction l2 with
    | nil => intro acc h; exact h
    | cons x xs ih => intro acc h; exact ih _ (insertLE_sorted P acc x h)
  exact haux l [] (by simp)

/-! ## The forEach partition of Facet.records -/

theorem option_or_assoc (A : Type) (a b c : Option A) :
    (a.or b).or c = a.or (b.or c) := by
  cases a <;> rfl

theorem getLast?_cons_or (A : Type) (a : A) (l : List A) :
    (a :: l).getLast? = l.getLast?.or (some a) := by
  induction l generalizing a with
  | nil => rfl
  | cons b bs ih =>
    rw [List.getLast?_cons_cons, ih b, option_or_assoc]
    rfl

theorem partStep_inbound_char (P : Type) (acc : RecordsOutput P) (r : Rec P) :
    (partStep P acc r).inboundEvents =
      if isInboundRecord P r then acc.inboundEvents ++ [r] else acc.inboundEvents := by
  unfold partStep
  by_cases h1 : isInboundRecord P r <;> by_cases h2 : isOutboundRecord P r <;>
    by_cases h3 : isStateRecord P r <;> simp [h1, h2, h3]

theorem partStep_outbound_char (P : Type) (acc : RecordsOutput P) (r : Rec P) :
    (partStep P acc r).outboundEvents =
      if !(isInboundRecord P r) && isOutboundRecord P r then
        acc.outboundEvents ++ [r]
      else acc.outboundEvents := by
  unfold partStep
  by_cases h1 : isInboundRecord P r <;> by_cases h2 : isOutboundRecord P r <;>
    by_cases h3 : isStateRecord P r <;> simp [h1, h2, h3]

theorem partStep_state_char (P : Type) (acc : RecordsOutput P) (r : Rec P) :
    (partStep P acc r).state =
      if !(isInboundRecord P r) && !(isOutboundRecord P r) && isStateRecord P r then
        some r
      else acc.state := by
  unfold partStep
  by_cases h1 : isInboundRecord P r <;> by_cases h2 : isOutboundRecord P r <;>
    by_cases h3 : isStateRecord P r <;> simp [h1, h2, h3]

theorem partFold_inbound (P : Type) (l : List (Rec P)) :
    ∀ acc : RecordsOutput P,
      (l.foldl (partStep P) acc).inboundEvents =
        acc.inboundEvents ++ l.filter (isInboundRecord P) := by
  induction l with
  | nil => intro acc; simp
  | cons r xs ih =>
    intro acc
    show ((xs.foldl (partStep P) (partStep P acc r))).inboundEvents = _
    rw [ih (partStep P acc r), partStep_inbound_char, List.filter_cons]
    by_cases h : isInboundRecord P r = true
    · rw [if_pos h, if_pos h]
      simp
    · rw [if_neg h, if_neg h]

theorem partFold_outbound (P : Type) (l : List (Rec P)) :
    ∀ acc : RecordsOutput P,
      (l.foldl (partStep P) acc).outboundEvents =
        acc.outboundEvents ++
          l.filter (fun r => !(isInboundRecord P r) && isOutboundRecord P r) := by
  induction l with
  | nil => intro acc; simp
  | cons r xs ih =>
    intro acc
    show ((xs.foldl (partStep P) (partStep P acc r))).outboundEvents = _
    rw [ih (partStep P acc r), partStep_outbound_char, List.filter_cons]
    by_cases h : (!(isInboundRecord P r) && isOutboundRecord P r) = true
    · rw [if_pos h, if_pos h]
      simp
    · rw [if_neg h, if_neg h]

theorem partFold_state (P : Type) (l : List (Rec P)) :
    ∀ acc : RecordsOutput P,
      (l.foldl (partStep P) acc).state =
        ((l.filter (fun r => !(isInboundRecord P r) && !(isOutboundRecord P r) &&
          isStateRecord P r)).getLast?).or acc.state := by
  induction l with
  | nil => intro acc; simp
  | cons r xs ih =>
    intro acc
    show ((xs.foldl (partStep P) (partStep P acc r))).state = _
    rw [ih (partStep P acc r), partStep_state_char, List.filter_cons]
    by_cases h : (!(isInboundRecord P r) && !(isOutboundRecord P r) &&
        isStateRecord P r) = true
    · rw [if_pos h, if_pos h, getLast?_cons_or, option_or_assoc]
      rfl
    · rw [if_neg h, if_neg h]

theorem filter_outbound_simplify (P : Type) (l : List (Rec P)) :
    l.filter (fun r => !(isInboundRecord P r) && isOutboundRecord P r) =
      l.filter (isOutboundRecord P) := by
  apply List.filter_congr
  intro r _
  cases ho : isOutboundRecord P r with
  | false => simp
  | true =>
    have hni : isInboundRecord P r = false := by
      cases hi : isInboundRecord P r with
      | false => rfl
      | true =>
        have := inbound_not_outbound (s := r.rng) hi
        unfold isOutboundRecord at ho
        rw [this] at ho
        cases ho
    simp [hni]

theorem filter_state_simplify (P : Type) (l : List (Rec P)) :
    l.filter (fun r => !(isInboundRecord P r) && !(isOutboundRecord P r) &&
      isStateRecord P r) = l.filter (isStateRecord P) := by
  apply List.filter_congr
  intro r _
  cases hs : isStateRecord P r with
  | false => simp
  | true =>
    have hrng : r.rng = "STATE" := by
      unfold isStateRecord at hs
      exact beq_iff_eq.mp hs
    have h1 : isInboundRecord P r = false := state_not_inbound hrng
    have h2 : isOutboundRecord P r = false := state_not_outbound hrng
    simp [h1, h2]

/-! ## Claim C6: the recalculate replay pipeline -/

/-- C6: `recalculate` queries all records of the group, partitions
them by discriminant-key kind (the partition's inbound list is a
sorted-by-sequence permutation of the inbound-classified query
results, the outbound list is exactly the outbound-classified ones,
and the state slot holds the last state-classified record), discards
the stored state value — it passes `null` as the starting state — and
takes only the previous sequence from the stored state record (0 when
absent), before running the processor over the complete past inbound
history followed by the new events inside `calculate`. -/
theorem claim6_recalculate_replay (P : Type) [Inhabited P] (f : Facet P)
    (store : Store P) (id : String) (newInboundEvents : List (Event P))
    (now : JSDate) :
    (recordsOf P f store id).inboundEvents.Perm
      ((queryRecords P f.name store id).filter (isInboundRecord P)) ∧
    List.Sorted (fun a b : Rec P => a.seq ≤ b.seq)
      (recordsOf P f store id).inboundEvents ∧
    (recordsOf P f store id).outboundEvents =
      (queryRecords P f.name store id).filter (isOutboundRecord P) ∧
    (recordsOf P f store id).state =
      ((queryRecords P f.name store id).filter (isStateRecord P)).getLast? ∧
    recalculate P f store id newInboundEvents now =
      calculate P f store id none
        (match (recordsOf P f store id).state with
          | some st => st.seq
          | none => 0)
        (recordsOf P f store id).inboundEvents newInboundEvents now := by
  have hinb : (recordsOf P f store id).inboundEvents =
      sortRecords P ((queryRecords P f.name store id).filter (isInboundRecord P)) := by
    unfold recordsOf
    show sortRecords P (((queryRecords P f.name store id).foldl (partStep P)
      ⟨none, [], []⟩).inboundEvents) = _
    rw [partFold_inbound]
    rfl
  refine ⟨?_, ?_, ?_, ?_, rfl⟩
  · rw [hinb]
    exact sortRecords_perm P _
  · rw [hinb]
    exact sortRecords_sorted P _
  · unfold recordsOf
    show ((queryRecords P f.name store id).foldl (partStep P)
      ⟨none, [], []⟩).outboundEvents = _
    rw [partFold_outbound, filter_outbound_simplify]
    rfl
  · unfold recordsOf
    show ((queryRecords P f.name store id).foldl (partStep P)
      ⟨none, [], []⟩).state = _
    rw [partFold_state, filter_state_simplify]
    exact Option.or_none

/-! ## JS object literal semantics -/

theorem objGet_cons (a : String) (b : JSVal) (rest : JSObj) (k : String) :
    objGet ((a, b) :: rest) k =
      if (a == k) = true then some b else objGet rest k := by
  unfold objGet
  rw [List.find?]
  by_cases h : (a == k) = true
  · have hs : (((a, b) : String × JSVal).1 == k) = true := h
    rw [hs]
    rfl
  · have hs : (((a, b) : String × JSVal).1 == k) = false := by simpa using h
    rw [hs]
    rfl

theorem objGet_objAssign_same (o : JSObj) (k : String) (v : JSVal) :
    objGet (objAssign o k v) k = some v := by
  induction o with
  | nil =>
    show objGet [(k, v)] k = some v
    rw [objGet_cons, if_pos (by simp)]
  | cons q rest ih =>
    obtain ⟨k2, v2⟩ := q
    unfold objAssign
    by_cases h : (k2 == k) = true
    · rw [if_pos h, objGet_cons, if_pos h]
    · rw [if_neg h, objGet_cons, if_neg h]
      exact ih

theorem objGet_objAssign_other (o : JSObj) (k2 : String) (v : JSVal) (k : String)
    (h : (k2 == k) = false) :
    objGet (objAssign o k2 v) k = objGet o k := by
  induction o with
  | nil =>
    show objGet [(k2, v)] k = objGet [] k
    rw [objGet_cons, if_neg (by simp [h])]
  | cons q rest ih =>
    obtain ⟨k3, v3⟩ := q
    unfold objAssign
    by_cases h3 : (k3 == k2) = true
    · rw [if_pos h3]
      have hk3 : (k3 == k) = false := by
        have e1 : k3 = k2 := beq_iff_eq.mp h3
        rw [e1]
        exact h
      rw [objGet_cons, if_neg (by simp [hk3]), objGet_cons, if_neg (by simp [hk3])]
    · rw [if_neg h3]
      by_cases hk : (k3 == k) = true
      · rw [objGet_cons, if_pos hk, objGet_cons, if_pos hk]
      · rw [objGet_cons, if_neg hk, objGet_cons, if_neg hk]
        exact ih

theorem option_map_or (A B : Type) (f : A → B) (a b : Option A) :
    (a.or b).map f = (a.map f).or (b.map f) := by
  cases a <;> rfl

theorem objGet_foldl_assign :
    ∀ (l : List (String × JSVal)) (acc : JSObj) (k : String),
      objGet (l.foldl (fun o p => objAssign o p.1 p.2) acc) k =
        (((l.filter (fun p => p.1 == k)).getLast?).map Prod.snd).or (objGet acc k) := by
  intro l
  induction l with
  | nil => intro acc k; rfl
  | cons q xs ih =>
    intro acc k
    obtain ⟨k2, v⟩ := q
    show objGet (xs.foldl (fun o p => objAssign o p.1 p.2) (objAssign acc k2 v)) k = _
    rw [ih (objAssign acc k2 v) k, List.filter_cons]
    by_cases h : (k2 == k) = true
    · have hp : (((k2, v) : String × JSVal).1 == k) = true := h
      rw [if_pos hp, getLast?_cons_or, option_map_or, option_or_assoc]
      have hk : k = k2 := (beq_iff_eq.mp h).symm
      rw [hk, objGet_objAssign_same]
      rfl
    · have hp : (((k2, v) : String × JSVal).1 == k) = false := by simpa using h
      rw [if_neg (by simp [hp]), objGet_objAssign_other acc k2 v k (by simpa using h)]

theorem objGet_objLit (l : List (String × JSVal)) (k : String) :
    objGet (objLit l) k = ((l.filter (fun p => p.1 == k)).getLast?).map Prod.snd := by
  unfold objLit
  rw [objGet_foldl_assign l [] k]
  exact Option.or_none

theorem filter_key_of_nodup :
    ∀ (l : List (String × JSVal)) (k : String) (v : JSVal),
      (l.map Prod.fst).Nodup → (k, v) ∈ l →
      l.filter (fun p => p.1 == k) = [(k, v)] := by
  intro l
  induction l with
  | nil => intro k v _ hm; cases hm
  | cons q xs ih =>
    intro k v hnd hm
    obtain ⟨k2, v2⟩ := q
    simp only [List.map_cons, List.nodup_cons] at hnd
    cases List.mem_cons.mp hm with
    | inl hq =>
      injection hq with hk hv
      subst hk
      subst hv
      rw [List.filter_cons, if_pos (by simp)]
      have hnil : xs.filter (fun p => p.1 == k) = [] := by
        rw [List.filter_eq_nil_iff]
        intro p hp
        intro hcon
        have hpk : p.1 = k := by simpa using hcon
        exact hnd.1 (hpk ▸ List.mem_map_of_mem Prod.fst hp)
      rw [hnil]
    | inr hxs =>
      have hne : (k2 == k) = false := by
        cases hb : (k2 == k) with
        | false => rfl
        | true =>
          have hkk : k2 = k := beq_iff_eq.mp hb
          subst hkk
          exact absurd (List.mem_map_of_mem Prod.fst hxs) hnd.1
      rw [List.filter_cons, if_neg (by simp [hne])]
      exact ih k v hnd.2 hxs

theorem objAssign_of_not_mem (o : JSObj) (k : String) (v : JSVal)
    (h : k ∉ o.map Prod.fst) : objAssign o k v = o ++ [(k, v)] := by
  induction o with
  | nil => rfl
  | cons q rest ih =>
    obtain ⟨k2, v2⟩ := q
    simp only [List.map_cons, List.mem_cons, not_or] at h
    unfold objAssign
    rw [if_neg (fun hb => h.1 (beq_iff_eq.mp hb).symm)]
    rw [ih h.2]
    rfl

theorem foldl_assign_append_disjoint :
    ∀ (l : List (String × JSVal)) (acc : JSObj),
      (l.map Prod.fst).Nodup →
      (∀ p ∈ l, p.1 ∉ acc.map Prod.fst) →
      l.foldl (fun o p => objAssign o p.1 p.2) acc = acc ++ l := by
  intro l
  induction l with
  | nil => intro acc _ _; simp
  | cons q xs ih =>
    intro acc hnd hdis
    obtain ⟨k, v⟩ := q
    simp only [List.map_cons, List.nodup_cons] at hnd
    show xs.foldl (fun o p => objAssign o p.1 p.2) (objAssign acc k v) = _
    rw [objAssign_of_not_mem acc k v (hdis (k, v) (List.mem_cons_self _ _))]
    rw [ih (acc ++ [(k, v)]) hnd.2 ?_]
    · simp
    · intro p hp
      simp only [List.map_append, List.mem_append, not_or]
      refine ⟨hdis p (List.mem_cons_of_mem _ hp), ?_⟩
      simp only [List.map_cons, List.map_nil, List.mem_singleton]
      intro hpk
      exact hnd.1 (hpk ▸ List.mem_map_of_mem Prod.fst hp)

/-! ## Claim C10: payload spread overrides and round-trip -/

/-- C10: `newRecord` spreads the caller's payload after the envelope
fields, so any payload key — the seven envelope names `_id`, `_rng`,
`_facet`, `_typ`, `_ts`, `_date`, `_seq` included — silently overrides
the envelope value at that key (for example a payload `_seq` replaces
the record's sequence number); and stripping the seven envelope fields
from a constructed record (as `mapRecordToOutput` and the past-event
replay do) returns the original payload exactly when the payload's
keys are disjoint from the seven envelope field names. -/
theorem claim10_payload_spread (facet id : String) (seq : Nat) (rng typ : String)
    (item : JSObj) (time : JSDate) :
    ((item.map Prod.fst).Nodup → ∀ k v, (k, v) ∈ item →
      objGet (newRecordObj facet id seq rng typ item time) k = some v) ∧
    ((item.map Prod.fst).Nodup →
      (∀ p ∈ item, p.1 ∉ envelopeKeys) →
      restStrip (newRecordObj facet id seq rng typ item time) = item) := by
  constructor
  · intro hnd k v hm
    unfold newRecordObj
    rw [objGet_objLit, List.filter_append, filter_key_of_nodup item k v hnd hm,
      List.getLast?_concat]
    rfl
  · intro hnd hdis
    unfold newRecordObj
    have hstep : objLit
        ([("_facet", JSVal.str facet),
          ("_id", JSVal.str (facetId facet id)),
          ("_seq", JSVal.num (Int.ofNat seq)),
          ("_rng", JSVal.str rng),
          ("_typ", JSVal.str typ),
          ("_ts", JSVal.num time.ms),
          ("_date", JSVal.str time.iso)] ++ item) =
        [("_facet", JSVal.str facet),
          ("_id", JSVal.str (facetId facet id)),
          ("_seq", JSVal.num (Int.ofNat seq)),
          ("_rng", JSVal.str rng),
          ("_typ", JSVal.str typ),
          ("_ts", JSVal.num time.ms),
          ("_date", JSVal.str time.iso)] ++ item := by
      unfold objLit
      rw [List.foldl_append]
      have henv : ([("_facet", JSVal.str facet),
          ("_id", JSVal.str (facetId facet id)),
          ("_seq", JSVal.num (Int.ofNat seq)),
          ("_rng", JSVal.str rng),
          ("_typ", JSVal.str typ),
          ("_ts", JSVal.num time.ms),
          ("_date", JSVal.str time.iso)] : List (String × JSVal)).foldl
            (fun o p => objAssign o p.1 p.2) [] =
          [("_facet", JSVal.str facet),
            ("_id", JSVal.str (facetId facet id)),
            ("_seq", JSVal.num (Int.ofNat seq)),
            ("_rng", JSVal.str rng),
            ("_typ", JSVal.str typ),
            ("_ts", JSVal.num time.ms),
            ("_date", JSVal.str time.iso)] := rfl
      rw [henv]
      apply foldl_assign_append_disjoint item _ hnd
      intro p hp
      intro hmem
      apply hdis p hp
      simp only [List.map_cons, List.map_nil, List.mem_cons,
        List.not_mem_nil, or_false] at hmem
      rcases hmem with h | h | h | h | h | h | h <;> rw [h] <;> decide
    rw [hstep]
    unfold restStrip
    rw [List.filter_append]
    have henvf : ([("_facet", JSVal.str facet),
        ("_id", JSVal.str (facetId facet id)),
        ("_seq", JSVal.num (Int.ofNat seq)),
        ("_rng", JSVal.str rng),
        ("_typ", JSVal.str typ),
        ("_ts", JSVal.num time.ms),
        ("_date", JSVal.str time.iso)] : List (String × JSVal)).filter
          (fun p => !(envelopeKeys.contains p.1)) = [] := rfl
    rw [henvf, List.nil_append]
    apply List.filter_eq_self.mpr
    intro p hp
    have hno := hdis p hp
    have hc : envelopeKeys.contains p.1 = false := by
      cases hb : envelopeKeys.contains p.1 with
      | false => rfl
      | true => exact absurd (List.elem_iff.mp hb) hno
    show (!(envelopeKeys.contains p.1)) = true
    rw [hc]
    rfl

/-- C10 witness: a payload key `_seq` overrides the envelope sequence
(999 replaces 3), and a disjoint payload round-trips exactly. -/
theorem claim10_payload_spread_witness :
    objGet (newRecordObj "ACC" "a" 3 "STATE" "ACC" [("_seq", JSVal.num 999)] demoDate)
        "_seq" = some (JSVal.num 999) ∧
    restStrip (newRecordObj "ACC" "a" 3 "STATE" "ACC" [("balance", JSVal.num 7)] demoDate) =
      [("balance", JSVal.num 7)] := by
  have h1 := (claim10_payload_spread "ACC" "a" 3 "STATE" "ACC"
    [("_seq", JSVal.num 999)] demoDate).1 (by decide) "_seq" (JSVal.num 999) (by simp)
  have h2 := (claim10_payload_spread "ACC" "a" 3 "STATE" "ACC"
    [("balance", JSVal.num 7)] demoDate).2 (by decide)
    (by intro p hp; simp only [List.mem_singleton] at hp; rw [hp]; decide)
  exact ⟨h1, h2⟩

/-! ## Recovering the committed history from a well-formed group -/

theorem find?_eq_head_filter (A : Type) (p : A → Bool) :
    ∀ l : List A, l.find? p = (l.filter p).head? := by
  intro l
  induction l with
  | nil => rfl
  | cons a t ih =>
    rw [List.find?, List.filter_cons]
    cases hp : p a with
    | true => rfl
    | false => exact ih

/-- A sorted list with duplicate-free keys is determined by its
multiset: two sorted, key-equal-free permutations are equal. -/
theorem eq_of_perm_sorted_keys (A : Type) (key : A → Nat) :
    ∀ (l1 l2 : List A), l1.Perm l2 →
      l1.Pairwise (fun a b => key a ≤ key b) →
      l2.Pairwise (fun a b => key a ≤ key b) →
      (l2.map key).Nodup → l1 = l2 := by
  intro l1
  induction l1 with
  | nil =>
    intro l2 hp _ _ _
    rw [(hp.symm).eq_nil]
  | cons a t ih =>
    intro l2 hp hs1 hs2 hnd
    cases l2 with
    | nil =>
      exact absurd hp.symm (by simp)
    | cons b u =>
      rw [List.pairwise_cons] at hs1 hs2
      have hamem : a ∈ b :: u := hp.mem_iff.mp (List.mem_cons_self a t)
      have hbmem : b ∈ a :: t := hp.mem_iff.mpr (List.mem_cons_self b u)
      have hab : a = b := by
        by_cases he : a = b
        · exact he
        · exfalso
          have hau : a ∈ u := by
            cases List.mem_cons.mp hamem with
            | inl h => exact absurd h he
            | inr h => exact h
          have hbt : b ∈ t := by
            cases List.mem_cons.mp hbmem with
            | inl h => exact absurd h.symm he
            | inr h => exact h
          have h1 : key a ≤ key b := hs1.1 b hbt
          have h2 : key b ≤ key a := hs2.1 a hau
          have hkey : key a = key b := by omega
          simp only [List.map_cons, List.nodup_cons] at hnd
          exact hnd.1 (hkey ▸ List.mem_map_of_mem key hau)
      subst hab
      have hpt : t.Perm u := hp.cons_inv
      simp only [List.map_cons, List.nodup_cons] at hnd
      rw [ih u hpt hs1.2 hs2.2 hnd.2]

theorem histTriples_fst (P : Type) (H : List (Event P)) :
    ∀ i : Nat, ((idxMap (Event P) (Nat × String × P)
        (fun j e => (j + 1, e.type, e.event)) i H).map Prod.fst) =
      List.range' (i + 1) H.length := by
  induction H with
  | nil => intro i; rfl
  | cons e es ih =>
    intro i
    show (i + 1) :: ((idxMap (Event P) (Nat × String × P)
      (fun j e => (j + 1, e.type, e.event)) (i + 1) es).map Prod.fst) = _
    rw [ih (i + 1), List.length_cons, List.range'_succ]

theorem histTriples_pairwise (P : Type) (H : List (Event P)) :
    (histTriples P H).Pairwise (fun a b => a.1 ≤ b.1) := by
  have hmap := histTriples_fst P H 0
  have hlt : (List.range' 1 H.length).Pairwise (fun a b : Nat => a < b) :=
    List.pairwise_lt_range' 1 H.length
  have hle : (List.range' 1 H.length).Pairwise (fun a b : Nat => a ≤ b) :=
    hlt.imp (fun h => Nat.le_of_lt h)
  rw [← hmap] at hle
  exact (List.pairwise_map.mp hle)

theorem histTriples_nodup_fst (P : Type) (H : List (Event P)) :
    ((histTriples P H).map Prod.fst).Nodup := by
  unfold histTriples
  rw [histTriples_fst P H 0]
  exact List.nodup_range' _ _

theorem histTriples_strip (P : Type) (H : List (Event P)) :
    ∀ i : Nat, ((idxMap (Event P) (Nat × String × P)
        (fun j e => (j + 1, e.type, e.event)) i H).map
          (fun t => Event.mk t.2.1 t.2.2)) = H := by
  induction H with
  | nil => intro i; rfl
  | cons e es ih =>
    intro i
    show Event.mk e.type e.event :: _ = e :: es
    rw [ih (i + 1)]

/-- The sorted inbound partition of a well-formed group is exactly the
committed history. -/
theorem sorted_triples_eq_hist (P : Type) (inb : List (Rec P)) (H : List (Event P))
    (hperm : (inb.map (inbTriple P)).Perm (histTriples P H)) :
    (sortRecords P inb).map (inbTriple P) = histTriples P H := by
  apply eq_of_perm_sorted_keys (Nat × String × P) Prod.fst
  · exact ((sortRecords_perm P inb).map (inbTriple P)).trans hperm
  · have hs := sortRecords_sorted P inb
    apply List.pairwise_map.mpr
    exact hs.imp (fun h => h)
  · exact histTriples_pairwise P H
  · exact histTriples_nodup_fst P H

theorem sorted_events_eq_hist (P : Type) (inb : List (Rec P)) (H : List (Event P))
    (hperm : (inb.map (inbTriple P)).Perm (histTriples P H)) :
    mapPastInboundRecordToEvent P (sortRecords P inb) = H := by
  have h1 := sorted_triples_eq_hist P inb H hperm
  have h2 : mapPastInboundRecordToEvent P (sortRecords P inb) =
      ((sortRecords P inb).map (inbTriple P)).map (fun t => Event.mk t.2.1 t.2.2) := by
    unfold mapPastInboundRecordToEvent inbTriple
    rw [List.map_map]
    rfl
  rw [h2, h1]
  exact histTriples_strip P H 0

/-! ## Claim C7: recalculate is idempotent on a committed group -/

theorem calcRecords_eq_of_process (P : Type) [Inhabited P] (f : Facet P)
    (id : String) (state : Option P) (seq : Nat) (pastInbound : List (Rec P))
    (newEvents : List (Event P)) (now : JSDate) (res : ProcessResult P)
    (hp : process P f.processor state (mapPastInboundRecordToEvent P pastInbound)
      newEvents = Except.ok res) :
    calcRecords P f id state seq pastInbound newEvents now = Except.ok
      ⟨newStateRecord P f.name id (seq + newEvents.length) res.state now,
        idxMap (Event P) (Rec P)
          (fun i e => newInboundRecord P f.name id (seq + 1 + i) e.type e.event now)
          0 newEvents,
        idxMap (Event P) (Rec P)
          (fun i e =>
            newOutboundRecord P f.name id (seq + newEvents.length) i e.type e.event now)
          0 res.newOutboundEvents,
        f.indexStateFuncs.filterMap (fun sif =>
          sif (newStateRecord P f.name id (seq + newEvents.length) res.state now)),
        ⟨(newStateRecord P f.name id (seq + newEvents.length) res.state now).seq,
          res.state, res.pastOutboundEvents, res.newOutboundEvents⟩⟩ := by
  simp only [calcRecords]
  rw [hp]

theorem calculate_ok_of (P : Type) [Inhabited P] (f : Facet P) (store : Store P)
    (id : String) (state : Option P) (seq : Nat) (pastInbound : List (Rec P))
    (newEvents : List (Event P)) (now : JSDate) (c : CalcRecords P) (store2 : Store P)
    (hc : calcRecords P f id state seq pastInbound newEvents now = Except.ok c)
    (hp : putState P f.name store c.stateRecord seq c.newInboundRecords
      c.newOutboundRecords c.indexRecords = Except.ok store2) :
    calculate P f store id state seq pastInbound newEvents now =
      Except.ok (store2, c.output) := by
  unfold calculate
  rw [hc]
  show (match putState P f.name store c.stateRecord seq c.newInboundRecords
      c.newOutboundRecords c.indexRecords with
    | Except.error e => Except.error e
    | Except.ok store3 => Except.ok (store3, c.output)) = _
  rw [hp]

theorem putState_ok_of_all (P : Type) (facet : String) (store : Store P)
    (state : Rec P) (prev : Nat) (inb outb idx : List (Rec P))
    (items : List (TxPut P))
    (h : putStateTx P facet state prev inb outb idx = Except.ok items)
    (hall : items.all (condOk P store) = true) :
    putState P facet store state prev inb outb idx =
      Except.ok (items.foldl (fun s p => storePut P s p.item) store) := by
  unfold putState
  rw [h]
  show commitTx P store items = _
  unfold commitTx
  rw [if_pos hall]

/-- The first record at the group state key is the unique
state-classified record of the group. -/
theorem storeGet_of_state_filter (P : Type) (facet : String) (store : Store P)
    (id : String) (st : Rec P)
    (hq : (queryRecords P facet store id).filter (isStateRecord P) = [st]) :
    storeGet P store (facetId facet id) "STATE" = some st := by
  unfold storeGet
  rw [find?_eq_head_filter]
  have heq : store.filter (fun r => r.rid == facetId facet id && r.rng == "STATE") =
      (queryRecords P facet store id).filter (isStateRecord P) := by
    unfold queryRecords
    rw [List.filter_filter]
    apply List.filter_congr
    intro r _
    show (r.rid == facetId facet id && r.rng == "STATE") =
      (isStateRecord P r && (r.rid == facetId facet id))
    unfold isStateRecord
    cases ha : (r.rid == facetId facet id) <;> cases hb : (r.rng == "STATE") <;> rfl
  rw [heq, hq]
  rfl

/-- C7: on any group whose records are those produced by prior
committed appends of a history `H` (the `WfGroup` invariant), and
whose facet has at most 24 secondary-index functions, `recalculate`
with an empty new-event list succeeds and returns a state equal (in
payload and sequence) to the last committed state record, together
with an empty `newOutboundEvents` list. -/
theorem claim7_recalculate_idempotent (P : Type) [Inhabited P] [DecidableEq P]
    (f : Facet P) (store : Store P) (id : String) (H : List (Event P)) (now : JSDate)
    (hwf : WfGroup P f store id H = true)
    (hidx : f.indexStateFuncs.length ≤ 24) :
    ∃ store2 out st,
      recalculate P f store id [] now = Except.ok (store2, out) ∧
      getState P f.name store id = some st ∧
      out.item = st.item ∧
      out.seq = st.seq ∧
      out.newOutboundEvents = [] := by
  simp only [WfGroup] at hwf
  cases hq : (queryRecords P f.name store id).filter (isStateRecord P) with
  | nil =>
    rw [hq] at hwf
    cases hwf
  | cons st rest =>
    cases rest with
    | cons r2 rest2 =>
      rw [hq] at hwf
      cases hwf
    | nil =>
      rw [hq] at hwf
      simp only [Bool.and_eq_true] at hwf
      obtain ⟨⟨⟨⟨hseq, hval⟩, hperm⟩, _hshape⟩, _houtb⟩ := hwf
      have hseqn : st.seq = H.length := by simpa using hseq
      cases hp : process P f.processor none H [] with
      | error m =>
        rw [hp] at hval
        cases hval
      | ok res =>
        rw [hp] at hval
        have hitem : st.item = res.state := by simpa using hval
        have hpermP : ((((queryRecords P f.name store id).filter
            (isInboundRecord P))).map (inbTriple P)).Perm (histTriples P H) :=
          List.isPerm_iff.mp hperm
        -- the sorted inbound partition is the history
        have hpast : mapPastInboundRecordToEvent P
            (sortRecords P ((queryRecords P f.name store id).filter
              (isInboundRecord P))) = H :=
          sorted_events_eq_hist P _ H hpermP
        -- recalculate unfolds to calculate with the stored sequence
        have hrecs : (recordsOf P f store id).state = some st := by
          unfold recordsOf
          show ((queryRecords P f.name store id).foldl (partStep P)
            ⟨none, [], []⟩).state = some st
          rw [partFold_state, filter_state_simplify, hq]
          rfl
        have hrecinb : (recordsOf P f store id).inboundEvents =
            sortRecords P ((queryRecords P f.name store id).filter
              (isInboundRecord P)) := by
          unfold recordsOf
          show sortRecords P (((queryRecords P f.name store id).foldl (partStep P)
            ⟨none, [], []⟩).inboundEvents) = _
          rw [partFold_inbound]
          rfl
        have hre : recalculate P f store id [] now =
            calculate P f store id none
              (match (recordsOf P f store id).state with
                | some st2 => st2.seq
                | none => 0)
              (recordsOf P f store id).inboundEvents [] now := rfl
        rw [hrecs] at hre
        -- the process call inside calculate
        have hproc2 : process P f.processor none
            (mapPastInboundRecordToEvent P (recordsOf P f store id).inboundEvents)
            [] = Except.ok res := by
          rw [hrecinb, hpast]
          exact hp
        have hnew : res.newOutboundEvents = [] := by
          have := process_nil_new P f.processor none
            (mapPastInboundRecordToEvent P (recordsOf P f store id).inboundEvents)
            res hproc2
          exact this
        have hcalc := calcRecords_eq_of_process P f id none st.seq
          (recordsOf P f store id).inboundEvents [] now res hproc2
        -- the built records, specialised to zero new events
        have hstRec : newStateRecord P f.name id (st.seq + 0) res.state now =
            newStateRecord P f.name id (st.seq + 0) res.state now := rfl
        have hinbnil : idxMap (Event P) (Rec P)
            (fun i e => newInboundRecord P f.name id (st.seq + 1 + i) e.type e.event now)
            0 ([] : List (Event P)) = [] := rfl
        have houtnil : idxMap (Event P) (Rec P)
            (fun i e => newOutboundRecord P f.name id (st.seq + 0) i e.type e.event now)
            0 res.newOutboundEvents = [] := by
          rw [hnew]
          rfl
        -- the transaction validates and every condition holds
        have htx := putStateTx_ok_of_valid P f.name (newStateRecord P f.name id (st.seq + 0) res.state now) st.seq []
          []
          (f.indexStateFuncs.filterMap (fun sif => sif (newStateRecord P f.name id (st.seq + 0) res.state now)))
          (by
            simp only [validationsPass]
            show (isStateRecord P (newStateRecord P f.name id (st.seq + 0) res.state now) &&
              isFacet P f.name (newStateRecord P f.name id (st.seq + 0) res.state now) &&
              true && true && true && true) = true
            have h1 : isStateRecord P
              (newStateRecord P f.name id (st.seq + 0) res.state now) = true := rfl
            have h2 : isFacet P f.name
                (newStateRecord P f.name id (st.seq + 0) res.state now) = true := by
              show (f.name == f.name) = true
              simp
            rw [h1, h2]
            rfl)
          (by
            have hlen := List.length_filterMap_le (fun sif => sif (newStateRecord P f.name id (st.seq + 0) res.state now))
              f.indexStateFuncs
            show (f.indexStateFuncs.filterMap (fun sif => sif (newStateRecord P f.name id (st.seq + 0) res.state now))).length +
              0 + 0 + 1 ≤ 25
            revert hlen
            generalize (f.indexStateFuncs.filterMap (fun sif => sif (newStateRecord P f.name id (st.seq + 0) res.state now))).length = n
            intro hlen
            omega)
        have hget : storeGet P store (facetId f.name id) "STATE" = some st :=
          storeGet_of_state_filter P f.name store id st hq
        have hall : (putStateItems P (newStateRecord P f.name id (st.seq + 0) res.state now) st.seq [] []
            (f.indexStateFuncs.filterMap (fun sif => sif (newStateRecord P f.name id (st.seq + 0) res.state now)))).all
              (condOk P store) = true := by
          rw [List.all_eq_true]
          intro p hpmem
          unfold putStateItems at hpmem
          simp only [List.map_nil, List.nil_append, List.mem_append,
            List.mem_map, List.mem_singleton] at hpmem
          cases hpmem with
          | inl hidxmem =>
            obtain ⟨r, _, hr⟩ := hidxmem
            rw [← hr]
            rfl
          | inr hstmem =>
            rw [hstmem]
            show condOk P store (createPutState P
              (newStateRecord P f.name id (st.seq + 0) res.state now) st.seq) = true
            unfold condOk createPutState
            have hrid : (newStateRecord P f.name id (st.seq + 0) res.state now).rid =
              facetId f.name id := rfl
            have hrng : (newStateRecord P f.name id (st.seq + 0) res.state now).rng =
              "STATE" := rfl
            rw [hrid, hrng, hget]
            simp [hseqn]
        have hput := putState_ok_of_all P f.name store (newStateRecord P f.name id (st.seq + 0) res.state now) st.seq [] []
          (f.indexStateFuncs.filterMap (fun sif => sif (newStateRecord P f.name id (st.seq + 0) res.state now))) _ htx hall
        -- assemble
        have hfinal : calculate P f store id none st.seq
            (recordsOf P f store id).inboundEvents [] now = Except.ok
              (((putStateItems P (newStateRecord P f.name id (st.seq + 0) res.state now)
                  st.seq [] [] (f.indexStateFuncs.filterMap (fun sif =>
                    sif (newStateRecord P f.name id (st.seq + 0) res.state now)))).foldl
                  (fun s p => storePut P s p.item) store),
                ⟨(newStateRecord P f.name id (st.seq + 0) res.state now).seq, res.state,
                  res.pastOutboundEvents, res.newOutboundEvents⟩) := by
          refine calculate_ok_of P f store id none st.seq
            (recordsOf P f store id).inboundEvents [] now _ _ hcalc ?_
          show putState P f.name store
            (newStateRecord P f.name id (st.seq + 0) res.state now) st.seq
            (idxMap (Event P) (Rec P)
              (fun i e => newInboundRecord P f.name id (st.seq + 1 + i) e.type e.event now)
              0 ([] : List (Event P)))
            (idxMap (Event P) (Rec P)
              (fun i e => newOutboundRecord P f.name id (st.seq + 0) i e.type e.event now)
              0 res.newOutboundEvents)
            (f.indexStateFuncs.filterMap (fun sif => sif (newStateRecord P f.name id (st.seq + 0) res.state now))) = _
          rw [hinbnil, houtnil]
          exact hput
        exact ⟨_, _, st, by rw [hre]; exact hfinal, hget, hitem.symm, rfl, hnew⟩

/-- C7 witness: on the one-append demo group, `recalculate` with no
new events reproduces the committed state and emits nothing. -/
theorem claim7_recalculate_idempotent_witness :
    (recalculate Nat demoFacet demoStore "a" [] demoDate2).map
        (fun x => x.2.newOutboundEvents) = Except.ok [] ∧
    (recalculate Nat demoFacet demoStore "a" [] demoDate2).map
        (fun x => x.2.item) = Except.ok 5 := by
  obtain ⟨store2, out, st, heq, hget, hitem, hseq, hnew⟩ :=
    claim7_recalculate_idempotent Nat demoFacet demoStore "a" demoHist demoDate2
      (by decide) (by decide)
  have hget2 : getState Nat "ACC" demoStore "a" = some st := hget
  have hst5 : st.item = 5 := by
    have hv : getState Nat "ACC" demoStore "a" =
        some (newStateRecord Nat "ACC" "a" 1 5 demoDate) := rfl
    rw [hv] at hget2
    injection hget2 with hget3
    rw [← hget3]
    rfl
  constructor
  · rw [heq]
    show Except.ok out.newOutboundEvents = Except.ok []
    rw [hnew]
  · rw [heq]
    show Except.ok out.item = Except.ok 5
    rw [hitem, hst5]

/-! ## Supporting development: a committed append extends WfGroup

The invariant `WfGroup` formalises "the group's records are those a
run of committed appends with history `H` produces".  The theorems
below justify that reading: a successful `append` of events `E` on a
`WfGroup _ _ _ _ H` store yields a `WfGroup _ _ _ _ (H ++ E)` store. -/

theorem applyEvent_out (P : Type) (proc : Processor P) (e : Event P) (s : P)
    (out : List (Event P)) :
    applyEvent P proc (s, out) e =
      (applyEvent P proc (s, []) e).map (fun r => (r.1, out ++ r.2)) := by
  unfold applyEvent
  dsimp only
  cases proc.rules e.type with
  | none =>
    show Except.ok (s, out) = (Except.ok (s, ([] : List (Event P)))).map
      (fun r => (r.1, out ++ r.2))
    show Except.ok (s, out) = Except.ok (s, out ++ [])
    rw [List.append_nil]
  | some rule =>
    dsimp only
    cases hrr : rule s e.event with
    | error m => rfl
    | ok pr => rfl

theorem foldlM_applyEvent_out (P : Type) (proc : Processor P) :
    ∀ (l : List (Event P)) (s : P) (out : List (Event P)),
      l.foldlM (applyEvent P proc) (s, out) =
        (l.foldlM (applyEvent P proc) (s, [])).map (fun r => (r.1, out ++ r.2)) := by
  intro l
  induction l with
  | nil =>
    intro s out
    show (Except.ok (s, out) : Except String (P × List (Event P))) =
      (Except.ok (s, ([] : List (Event P)))).map (fun r => (r.1, out ++ r.2))
    show (Except.ok (s, out) : Except String (P × List (Event P))) =
      Except.ok (s, out ++ [])
    rw [List.append_nil]
  | cons e es ih =>
    intro s out
    show (applyEvent P proc (s, out) e >>= fun b => es.foldlM (applyEvent P proc) b) =
      ((applyEvent P proc (s, []) e >>= fun b => es.foldlM (applyEvent P proc) b).map
        (fun r => (r.1, out ++ r.2)))
    rw [applyEvent_out P proc e s out]
    cases h : applyEvent P proc (s, []) e with
    | error m => rfl
    | ok b =>
      obtain ⟨s2, pub⟩ := b
      show (es.foldlM (applyEvent P proc) (s2, out ++ pub) :
          Except String (P × List (Event P))) =
        ((es.foldlM (applyEvent P proc) (s2, pub)).map (fun r => (r.1, out ++ r.2)))
      rw [ih s2 (out ++ pub), ih s2 pub]
      cases hfold : (es.foldlM (applyEvent P proc) (s2, []) :
          Except String (P × List (Event P))) with
      | error m => rfl
      | ok r2 =>
        show Except.ok (r2.1, (out ++ pub) ++ r2.2) =
          Except.ok (r2.1, out ++ (pub ++ r2.2))
        rw [List.append_assoc]

theorem runEvents_append (P : Type) (proc : Processor P) (s : P)
    (l1 l2 : List (Event P)) :
    runEvents P proc s (l1 ++ l2) =
      (match runEvents P proc s l1 with
        | Except.error m => Except.error m
        | Except.ok r1 =>
          match runEvents P proc r1.1 l2 with
          | Except.error m => Except.error m
          | Except.ok r2 => Except.ok (r2.1, r1.2 ++ r2.2)) := by
  unfold runEvents
  rw [List.foldlM_append]
  cases h1 : (l1.foldlM (applyEvent P proc) (s, []) :
      Except String (P × List (Event P))) with
  | error m => rfl
  | ok r1 =>
    show (l2.foldlM (applyEvent P proc) r1 : Except String (P × List (Event P))) = _
    have hpair : (r1.1, r1.2) = r1 := rfl
    rw [← hpair, foldlM_applyEvent_out P proc l2 r1.1 r1.2]
    dsimp only
    cases h2 : (l2.foldlM (applyEvent P proc) (r1.1, []) :
        Except String (P × List (Event P))) with
    | error m => rfl
    | ok r2 => rfl

/-- Composing a committed replay with an append's new events gives the
full replay: if replaying `H` from scratch yields `v` (with past
outbound `p1`), and running `E` from `v` yields `res`, then replaying
`H ++ E` from scratch yields `res.state`. -/
theorem process_append_compose (P : Type) [Inhabited P] (proc : Processor P)
    (H E : List (Event P)) (res0 res : ProcessResult P)
    (h0 : process P proc none H [] = Except.ok res0)
    (h1 : process P proc (some res0.state) [] E = Except.ok res) :
    process P proc none (H ++ E) [] = Except.ok
      ⟨res.state, res0.pastOutboundEvents ++ res.newOutboundEvents, []⟩ := by
  unfold process at h0 h1 ⊢
  cases hrH : runEvents P proc (startOf P proc none) H with
  | error m =>
    rw [hrH] at h0
    cases h0
  | ok r1 =>
    obtain ⟨s1, o1⟩ := r1
    rw [hrH] at h0
    dsimp only at h0
    have hnil : runEvents P proc s1 [] = Except.ok (s1, ([] : List (Event P))) := rfl
    rw [hnil] at h0
    simp only [Except.ok.injEq] at h0
    have hs1 : s1 = res0.state := by rw [← h0]
    have ho1 : o1 = res0.pastOutboundEvents := by rw [← h0]
    have hstart1 : startOf P proc (some res0.state) = res0.state := rfl
    rw [hstart1] at h1
    have hnil2 : runEvents P proc res0.state [] =
      Except.ok (res0.state, ([] : List (Event P))) := rfl
    rw [hnil2] at h1
    dsimp only at h1
    cases hrE : runEvents P proc res0.state E with
    | error m =>
      rw [hrE] at h1
      cases h1
    | ok r2 =>
      obtain ⟨s2, o2⟩ := r2
      rw [hrE] at h1
      simp only [Except.ok.injEq] at h1
      rw [runEvents_append P proc (startOf P proc none) H E, hrH]
      dsimp only
      rw [hs1, hrE]
      dsimp only
      have hs2 : s2 = res.state := by rw [← h1]
      have ho2 : o2 = res.newOutboundEvents := by rw [← h1]
      rw [ho1, hs2, ho2]
      rfl

theorem sameKey_false_of_rng_ne (P : Type) (x r : Rec P) (h : x.rng ≠ r.rng) :
    sameKey P x r = false := by
  unfold sameKey
  cases hb : (x.rng == r.rng) with
  | false => simp
  | true => exact absurd (beq_iff_eq.mp hb) h

theorem sameKey_false_of_rid_ne (P : Type) (x r : Rec P) (h : x.rid ≠ r.rid) :
    sameKey P x r = false := by
  unfold sameKey
  cases hb : (x.rid == r.rid) with
  | false => simp
  | true => exact absurd (beq_iff_eq.mp hb) h

theorem storePut_fresh (P : Type) (store : List (Rec P)) (r : Rec P)
    (hfresh : ∀ x ∈ store, sameKey P x r = false) :
    storePut P store r = store ++ [r] := by
  unfold storePut
  show List.filter _ store ++ [r] = store ++ [r]
  rw [List.filter_eq_self.mpr]
  intro x hx
  rw [hfresh x hx]
  rfl

theorem foldl_storePut_fresh (P : Type) :
    ∀ (rs : List (Rec P)) (store : List (Rec P)),
      (∀ r ∈ rs, ∀ x ∈ store, sameKey P x r = false) →
      rs.Pairwise (fun a b => sameKey P a b = false) →
      rs.foldl (storePut P) store = store ++ rs := by
  intro rs
  induction rs with
  | nil => intro store _ _; exact (List.append_nil store).symm
  | cons r rest ih =>
    intro store hfresh hpw
    rw [List.pairwise_cons] at hpw
    show rest.foldl (storePut P) (storePut P store r) = _
    rw [storePut_fresh P store r (hfresh r (List.mem_cons_self _ _))]
    rw [ih (store ++ [r]) ?_ hpw.2]
    · simp
    · intro q hq x hx
      cases List.mem_append.mp hx with
      | inl hxs => exact hfresh q (List.mem_cons_of_mem _ hq) x hxs
      | inr hxr =>
        rw [List.mem_singleton.mp hxr]
        exact hpw.1 q hq

theorem storeGet_none_all (P : Type) (store : List (Rec P)) (r : Rec P)
    (h : storeGet P store r.rid r.rng = none) :
    ∀ x ∈ store, sameKey P x r = false := by
  intro x hx
  unfold storeGet at h
  have := List.find?_eq_none.mp h x hx
  unfold sameKey
  cases hb : (x.rid == r.rid && x.rng == r.rng) with
  | false => rfl
  | true => exact absurd hb this

theorem query_append (P : Type) (facet : String) (store : List (Rec P)) (id : String)
    (rs : List (Rec P)) :
    queryRecords P facet (store ++ rs) id =
      queryRecords P facet store id ++
        rs.filter (fun r => r.rid == facetId facet id) := by
  unfold queryRecords
  exact List.filter_append _ _

theorem storePut_query_other (P : Type) (facet : String) (store : List (Rec P))
    (id : String) (r : Rec P) (h : r.rid ≠ facetId facet id) :
    queryRecords P facet (storePut P store r) id = queryRecords P facet store id := by
  unfold storePut queryRecords
  show List.filter _ (List.filter _ store ++ [r]) = _
  rw [List.filter_append, List.filter_filter]
  have h2 : List.filter (fun x : Rec P => x.rid == facetId facet id) [r] = [] := by
    rw [List.filter_cons]
    rw [if_neg]
    · rfl
    · intro hb
      exact h (beq_iff_eq.mp hb)
  rw [h2, List.append_nil]
  apply List.filter_congr
  intro x _
  cases hx : (x.rid == facetId facet id) with
  | false => simp [hx]
  | true =>
    have hxr : x.rid = facetId facet id := beq_iff_eq.mp hx
    have hsk : sameKey P x r = false :=
      sameKey_false_of_rid_ne P x r (by rw [hxr]; exact fun he => h he.symm)
    rw [hsk]
    simp [hx]

theorem query_foldl_storePut_other (P : Type) (facet : String) (id : String) :
    ∀ (rs : List (Rec P)) (store : List (Rec P)),
      (∀ r ∈ rs, r.rid ≠ facetId facet id) →
      queryRecords P facet (rs.foldl (storePut P) store) id =
        queryRecords P facet store id := by
  intro rs
  induction rs with
  | nil => intro store _; rfl
  | cons r rest ih =>
    intro store hr
    show queryRecords P facet (rest.foldl (storePut P) (storePut P store r)) id = _
    rw [ih (storePut P store r) (fun q hq => hr q (List.mem_cons_of_mem _ hq)),
      storePut_query_other P facet store id r (hr r (List.mem_cons_self _ _))]

theorem storePut_query_same (P : Type) (facet : String) (store : List (Rec P))
    (id : String) (r : Rec P) (h : r.rid = facetId facet id) :
    queryRecords P facet (storePut P store r) id =
      (queryRecords P facet store id).filter (fun x => !(sameKey P x r)) ++ [r] := by
  unfold storePut queryRecords
  show List.filter _ (List.filter _ store ++ [r]) = _
  rw [List.filter_append, List.filter_filter, List.filter_filter]
  have h2 : List.filter (fun x : Rec P => x.rid == facetId facet id) [r] = [r] := by
    rw [List.filter_cons, if_pos (by rw [h]; simp)]
    rfl
  rw [h2]
  congr 1
  apply List.filter_congr
  intro x _
  cases hx : (x.rid == facetId facet id) <;> cases hs : sameKey P x r <;> simp [hx, hs]

theorem idxMap_append (A B : Type) (f : Nat → A → B) :
    ∀ (l1 l2 : List A) (i : Nat),
      idxMap A B f i (l1 ++ l2) = idxMap A B f i l1 ++ idxMap A B f (i + l1.length) l2 := by
  intro l1
  induction l1 with
  | nil => intro l2 i; simp [idxMap]
  | cons x xs ih =>
    intro l2 i
    show f i x :: idxMap A B f (i + 1) (xs ++ l2) = _
    rw [ih l2 (i + 1)]
    have harith : i + 1 + xs.length = i + (xs.length + 1) := by omega
    rw [harith]
    rfl

theorem histTriples_append (P : Type) (H E : List (Event P)) :
    histTriples P (H ++ E) =
      histTriples P H ++
        idxMap (Event P) (Nat × String × P)
          (fun j e => (j + 1, e.type, e.event)) H.length E := by
  unfold histTriples
  rw [idxMap_append]
  have h0 : (0 : Nat) + H.length = H.length := by omega
  rw [h0]

theorem newInb_triples (P : Type) (name id : String) (n : Nat) (now : JSDate) :
    ∀ (E : List (Event P)) (b : Nat),
      (idxMap (Event P) (Rec P)
        (fun i e => newInboundRecord P name id (n + 1 + i) e.type e.event now) b E).map
          (inbTriple P) =
        idxMap (Event P) (Nat × String × P)
          (fun j e => (j + 1, e.type, e.event)) (n + b) E := by
  intro E
  induction E with
  | nil => intro b; rfl
  | cons e es ih =>
    intro b
    show (n + 1 + b, e.type, e.event) :: _ = (n + b + 1, e.type, e.event) :: _
    have harith : n + 1 + b = n + b + 1 := by omega
    rw [harith, ih (b + 1)]
    have harith2 : n + (b + 1) = n + b + 1 := by omega
    rw [harith2]

theorem takeWhile_append_stop (A : Type) (p : A → Bool) :
    ∀ (xs : List A) (y : A) (ys : List A),
      (∀ x ∈ xs, p x = true) → p y = false →
      List.takeWhile p (xs ++ y :: ys) = xs := by
  intro xs
  induction xs with
  | nil =>
    intro y ys _ hy
    show List.takeWhile p (y :: ys) = []
    rw [List.takeWhile_cons, hy]
    simp
  | cons x xt ih =>
    intro y ys hall hy
    show List.takeWhile p (x :: (xt ++ y :: ys)) = x :: xt
    rw [List.takeWhile_cons, hall x (List.mem_cons_self _ _)]
    rw [if_pos rfl, ih y ys (fun q hq => hall q (List.mem_cons_of_mem _ hq)) hy]

theorem outIdxOf_newOutbound (P : Type) (name id : String) (sq i : Nat)
    (t : String) (item : P) (now : JSDate) :
    outIdxOf P (newOutboundRecord P name id sq i t item now) = i := by
  unfold outIdxOf
  have hdata : (newOutboundRecord P name id sq i t item now).rng.data =
      "OUTBOUND".data ++ '/' :: (t.data ++ '/' :: (natDigits sq ++ '/' :: natDigits i)) :=
    outboundKey_data t sq i
  rw [hdata]
  have hrev : ("OUTBOUND".data ++ '/' ::
      (t.data ++ '/' :: (natDigits sq ++ '/' :: natDigits i))).reverse =
      (natDigits i).reverse ++ '/' ::
        ((natDigits sq).reverse ++ '/' :: (t.data.reverse ++ '/' :: "OUTBOUND".data.reverse)) := by
    simp [List.reverse_append]
  rw [hrev]
  rw [takeWhile_append_stop Char (fun c => !(c == '/')) ((natDigits i).reverse) '/' _
    ?_ (by simp)]
  · rw [List.reverse_reverse]
    exact parseDigits_natDigits i
  · intro x hx
    have hx2 : x ∈ natDigits i := List.mem_reverse.mp hx
    have hne : x ≠ '/' := by
      intro he
      exact slash_not_mem_natDigits i (he ▸ hx2)
    simp [hne]

theorem filter_comm_bool (A : Type) (p q : A → Bool) (l : List A) :
    (l.filter q).filter p = (l.filter p).filter q := by
  rw [List.filter_filter, List.filter_filter]
  apply List.filter_congr
  intro a _
  rw [Bool.and_comm]

theorem idxMap_pairwise (A B : Type) (f : Nat → A → B) (R : B → B → Prop)
    (h : ∀ i j a b, i < j → R (f i a) (f j b)) :
    ∀ (l : List A) (b : Nat), (idxMap A B f b l).Pairwise R := by
  intro l
  induction l with
  | nil => intro b; exact List.Pairwise.nil
  | cons x xs ih =>
    intro b
    show List.Pairwise R (f b x :: idxMap A B f (b + 1) xs)
    refine List.Pairwise.cons ?_ (ih (b + 1))
    intro y hy
    obtain ⟨j, hj, hyeq⟩ := (idxMap_mem_iff A B f (b + 1) xs y).mp hy
    rw [hyeq]
    exact h b (b + 1 + j) x _ (by omega)

theorem inbound_class (P : Type) (r : Rec P) (t : String) (s : Nat)
    (h : r.rng = inboundRecordRangeKey t s) :
    isInboundRecord P r = true ∧ isOutboundRecord P r = false ∧
      isStateRecord P r = false := by
  have h1 := isInbound_of_inboundKey P r t s h
  refine ⟨h1, inbound_not_outbound h1, ?_⟩
  cases hb : isStateRecord P r with
  | false => rfl
  | true =>
    have hrng : r.rng = "STATE" := beq_iff_eq.mp hb
    exact absurd hrng (inbound_ne_state h1)

theorem outbound_class (P : Type) (r : Rec P) (t : String) (s i : Nat)
    (h : r.rng = outboundRecordRangeKey t s i) :
    isOutboundRecord P r = true ∧ isInboundRecord P r = false ∧
      isStateRecord P r = false := by
  have h1 := isOutbound_of_outboundKey P r t s i h
  refine ⟨h1, ?_, ?_⟩
  · cases hb : isInboundRecord P r with
    | false => rfl
    | true =>
      have h2 := inbound_not_outbound hb
      unfold isOutboundRecord at h1
      rw [h2] at h1
      cases h1
  · cases hb : isStateRecord P r with
    | false => rfl
    | true =>
      have hrng : r.rng = "STATE" := beq_iff_eq.mp hb
      exact absurd hrng (outbound_ne_state h1)

/-- The table after a successful `putState` transaction, seen through
the group's query: the new inbound and outbound records are appended,
the secondary-index puts land outside the group, and the
compare-and-swap put replaces the record at the state key. -/
theorem putStateItems_foldl_query (P : Type) (facet : String) (store : List (Rec P))
    (id : String) (stRec : Rec P) (prev : Nat) (inb outb idx : List (Rec P))
    (hstid : stRec.rid = facetId facet id)
    (hnewid : ∀ r ∈ inb ++ outb, r.rid = facetId facet id)
    (hnewrng : ∀ r ∈ inb ++ outb, r.rng ≠ stRec.rng)
    (hfresh : ∀ r ∈ inb ++ outb, ∀ x ∈ store, sameKey P x r = false)
    (hpw : (inb ++ outb).Pairwise (fun a b => sameKey P a b = false))
    (hidx : ∀ r ∈ idx, r.rid ≠ facetId facet id) :
    queryRecords P facet
      ((putStateItems P stRec prev inb outb idx).foldl
        (fun s p => storePut P s p.item) store) id =
      (queryRecords P facet store id).filter (fun x => !(sameKey P x stRec)) ++
        inb ++ outb ++ [stRec] := by
  unfold putStateItems
  rw [← List.map_append]
  rw [List.foldl_append, List.foldl_append]
  have h1 : ((inb ++ outb).map (createPutItem P)).foldl
      (fun s p => storePut P s p.item) store = store ++ (inb ++ outb) := by
    rw [List.foldl_map]
    exact foldl_storePut_fresh P (inb ++ outb) store hfresh hpw
  rw [h1]
  have h3 : ([createPutState P stRec prev]).foldl (fun s p => storePut P s p.item)
      ((idx.map (createPutSecondaryIndex P)).foldl (fun s p => storePut P s p.item)
        (store ++ (inb ++ outb))) =
      storePut P ((idx.map (createPutSecondaryIndex P)).foldl
        (fun s p => storePut P s p.item) (store ++ (inb ++ outb))) stRec := rfl
  rw [h3]
  rw [storePut_query_same P facet _ id stRec hstid]
  have h2 : queryRecords P facet ((idx.map (createPutSecondaryIndex P)).foldl
      (fun s p => storePut P s p.item) (store ++ (inb ++ outb))) id =
      queryRecords P facet (store ++ (inb ++ outb)) id := by
    rw [List.foldl_map]
    exact query_foldl_storePut_other P facet id idx (store ++ (inb ++ outb)) hidx
  rw [h2, query_append]
  have h4 : (inb ++ outb).filter (fun r => r.rid == facetId facet id) = inb ++ outb := by
    rw [List.filter_eq_self]
    intro r hr
    rw [hnewid r hr]
    simp
  rw [h4, List.filter_append]
  have h5 : (inb ++ outb).filter (fun x => !(sameKey P x stRec)) = inb ++ outb := by
    rw [List.filter_eq_self]
    intro r hr
    rw [sameKey_false_of_rng_ne P r stRec (hnewrng r hr)]
    rfl
  rw [h5]
  simp [List.append_assoc]

/-- A successful committed `append` of events `E` on a group whose
records are those of a committed history `H` yields a group whose
records are those of the history `H ++ E` — the `WfGroup` invariant is
preserved — provided the facet's secondary-index functions always
target a partition key other than the group's own. -/
theorem append_extends_wf (P : Type) [Inhabited P] [DecidableEq P]
    (f : Facet P) (store : Store P) (id : String) (H E : List (Event P))
    (now : JSDate) (store2 : Store P) (out : ChangeOutput P)
    (hwf : WfGroup P f store id H = true)
    (hidxsafe : ∀ g ∈ f.indexStateFuncs, ∀ r r2, g r = some r2 →
      r2.rid ≠ facetId f.name id)
    (hap : append P f store id E now = Except.ok (store2, out)) :
    WfGroup P f store2 id (H ++ E) = true := by
  simp only [WfGroup] at hwf
  cases hq : (queryRecords P f.name store id).filter (isStateRecord P) with
  | nil => rw [hq] at hwf; cases hwf
  | cons st rest =>
    cases rest with
    | cons r2 rest2 => rw [hq] at hwf; cases hwf
    | nil =>
      rw [hq] at hwf
      simp only [Bool.and_eq_true] at hwf
      obtain ⟨⟨⟨⟨hseq, hval⟩, hperm⟩, hshape⟩, houtb⟩ := hwf
      have hseqn : st.seq = H.length := by simpa using hseq
      cases hp : process P f.processor none H [] with
      | error m => rw [hp] at hval; cases hval
      | ok res0 =>
        rw [hp] at hval
        have hitem : st.item = res0.state := by simpa using hval
        have hget : getState P f.name store id = some st :=
          storeGet_of_state_filter P f.name store id st hq
        unfold append at hap
        rw [hget] at hap
        dsimp only at hap
        unfold appendTo at hap
        cases hpE : process P f.processor (some st.item) [] E with
        | error m =>
          exfalso
          have hcalc : calcRecords P f id (some st.item) st.seq [] E now =
              Except.error m := by
            simp only [calcRecords]
            rw [show mapPastInboundRecordToEvent P ([] : List (Rec P)) =
              ([] : List (Event P)) from rfl, hpE]
          unfold calculate at hap
          rw [hcalc] at hap
          cases hap
        | ok res =>
          have hcalc := calcRecords_eq_of_process P f id (some st.item) st.seq
            [] E now res hpE
          unfold calculate at hap
          rw [hcalc] at hap
          dsimp only at hap
          cases hps : putState P f.name store (newStateRecord P f.name id (st.seq + E.length) res.state now) st.seq
              (idxMap (Event P) (Rec P) (fun i e => newInboundRecord P f.name id (st.seq + 1 + i) e.type e.event now) 0 E) (idxMap (Event P) (Rec P) (fun i e => newOutboundRecord P f.name id (st.seq + E.length) i e.type e.event now) 0 res.newOutboundEvents) (f.indexStateFuncs.filterMap (fun sif => sif (newStateRecord P f.name id (st.seq + E.length) res.state now))) with
          | error e => rw [hps] at hap; cases hap
          | ok store3 =>
            rw [hps] at hap
            dsimp only at hap
            injection hap with hpair
            injection hpair with hstore2 hout
            unfold putState at hps
            cases htx : putStateTx P f.name (newStateRecord P f.name id (st.seq + E.length) res.state now) st.seq
                (idxMap (Event P) (Rec P) (fun i e => newInboundRecord P f.name id (st.seq + 1 + i) e.type e.event now) 0 E) (idxMap (Event P) (Rec P) (fun i e => newOutboundRecord P f.name id (st.seq + E.length) i e.type e.event now) 0 res.newOutboundEvents) (f.indexStateFuncs.filterMap (fun sif => sif (newStateRecord P f.name id (st.seq + E.length) res.state now))) with
            | error msg => rw [htx] at hps; cases hps
            | ok items =>
              rw [htx] at hps
              obtain ⟨hitems, hvalid, hsize⟩ :=
                putStateTx_ok_parts P f.name (newStateRecord P f.name id (st.seq + E.length) res.state now) st.seq
                  (idxMap (Event P) (Rec P) (fun i e => newInboundRecord P f.name id (st.seq + 1 + i) e.type e.event now) 0 E) (idxMap (Event P) (Rec P) (fun i e => newOutboundRecord P f.name id (st.seq + E.length) i e.type e.event now) 0 res.newOutboundEvents) (f.indexStateFuncs.filterMap (fun sif => sif (newStateRecord P f.name id (st.seq + E.length) res.state now))) items htx
              dsimp only at hps
              unfold commitTx at hps
              cases hcond : items.all (condOk P store) with
              | false =>
                rw [hcond] at hps
                rw [if_neg (by simp)] at hps
                cases hps
              | true =>
                rw [hcond] at hps
                rw [if_pos rfl] at hps
                injection hps with hfold
                have hcondall := List.all_eq_true.mp hcond
                -- shapes of the new records
                have hinbshape : ∀ r ∈ (idxMap (Event P) (Rec P) (fun i e => newInboundRecord P f.name id (st.seq + 1 + i) e.type e.event now) 0 E), ∃ j, ∃ hj : j < E.length,
                    r = newInboundRecord P f.name id (st.seq + 1 + j)
                      (E.get ⟨j, hj⟩).type (E.get ⟨j, hj⟩).event now := by
                  intro r hr
                  obtain ⟨j, hj, hb⟩ := (idxMap_mem_iff _ _ _ 0 E r).mp hr
                  refine ⟨j, hj, ?_⟩
                  rw [hb, Nat.zero_add]
                have houtshape : ∀ r ∈ (idxMap (Event P) (Rec P) (fun i e => newOutboundRecord P f.name id (st.seq + E.length) i e.type e.event now) 0 res.newOutboundEvents), ∃ j,
                    ∃ hj : j < res.newOutboundEvents.length,
                    r = newOutboundRecord P f.name id (st.seq + E.length) j
                      (res.newOutboundEvents.get ⟨j, hj⟩).type
                      (res.newOutboundEvents.get ⟨j, hj⟩).event now := by
                  intro r hr
                  obtain ⟨j, hj, hb⟩ :=
                    (idxMap_mem_iff _ _ _ 0 res.newOutboundEvents r).mp hr
                  refine ⟨j, hj, ?_⟩
                  rw [hb, Nat.zero_add]
                have hinbfacts : ∀ r ∈ (idxMap (Event P) (Rec P) (fun i e => newInboundRecord P f.name id (st.seq + 1 + i) e.type e.event now) 0 E),
                    r.rid = facetId f.name id ∧ isInboundRecord P r = true ∧
                      isOutboundRecord P r = false ∧ isStateRecord P r = false := by
                  intro r hr
                  obtain ⟨j, hj, hb⟩ := hinbshape r hr
                  subst hb
                  have hc := inbound_class P
                    (newInboundRecord P f.name id (st.seq + 1 + j)
                      (E.get ⟨j, hj⟩).type (E.get ⟨j, hj⟩).event now)
                    (E.get ⟨j, hj⟩).type (st.seq + 1 + j) rfl
                  exact ⟨rfl, hc.1, hc.2.1, hc.2.2⟩
                have houtfacts : ∀ r ∈ (idxMap (Event P) (Rec P) (fun i e => newOutboundRecord P f.name id (st.seq + E.length) i e.type e.event now) 0 res.newOutboundEvents),
                    r.rid = facetId f.name id ∧ isOutboundRecord P r = true ∧
                      isInboundRecord P r = false ∧ isStateRecord P r = false := by
                  intro r hr
                  obtain ⟨j, hj, hb⟩ := houtshape r hr
                  subst hb
                  have hc := outbound_class P
                    (newOutboundRecord P f.name id (st.seq + E.length) j
                      (res.newOutboundEvents.get ⟨j, hj⟩).type
                      (res.newOutboundEvents.get ⟨j, hj⟩).event now)
                    (res.newOutboundEvents.get ⟨j, hj⟩).type
                    (st.seq + E.length) j rfl
                  exact ⟨rfl, hc.1, hc.2.1, hc.2.2⟩
                -- freshness of the new event keys against the table
                have hfresh : ∀ r ∈ (idxMap (Event P) (Rec P) (fun i e => newInboundRecord P f.name id (st.seq + 1 + i) e.type e.event now) 0 E) ++ (idxMap (Event P) (Rec P) (fun i e => newOutboundRecord P f.name id (st.seq + E.length) i e.type e.event now) 0 res.newOutboundEvents),
                    ∀ x, List.Mem x store → sameKey P x r = false := by
                  intro r hr x hx
                  have hput : createPutItem P r ∈ items := by
                    rw [hitems]
                    unfold putStateItems
                    rcases List.mem_append.mp hr with h | h
                    · exact List.mem_append_left _ (List.mem_append_left _
                        (List.mem_append_left _ (List.mem_map_of_mem _ h)))
                    · exact List.mem_append_left _ (List.mem_append_left _
                        (List.mem_append_right _ (List.mem_map_of_mem _ h)))
                  have hc : condOk P store (createPutItem P r) = true :=
                    hcondall _ hput
                  have hnone : storeGet P store r.rid r.rng = none :=
                    Option.isNone_iff_eq_none.mp hc
                  exact storeGet_none_all P store r hnone x hx
                -- mutual distinctness of the new event keys
                have hpwinb : List.Pairwise (fun a b => sameKey P a b = false)
                    (idxMap (Event P) (Rec P) (fun i e => newInboundRecord P f.name id (st.seq + 1 + i) e.type e.event now) 0 E) := by
                  refine idxMap_pairwise (Event P) (Rec P) _ _ ?_ E 0
                  intro i j a b hij
                  apply sameKey_false_of_rng_ne
                  show inboundRecordRangeKey a.type (st.seq + 1 + i) ≠
                    inboundRecordRangeKey b.type (st.seq + 1 + j)
                  intro he
                  have h2 := (inboundKey_inj he).2
                  exact absurd (Nat.add_left_cancel h2) (Nat.ne_of_lt hij)
                have hpwout : List.Pairwise (fun a b => sameKey P a b = false)
                    (idxMap (Event P) (Rec P) (fun i e => newOutboundRecord P f.name id (st.seq + E.length) i e.type e.event now) 0 res.newOutboundEvents) := by
                  refine idxMap_pairwise (Event P) (Rec P) _ _ ?_
                    res.newOutboundEvents 0
                  intro i j a b hij
                  apply sameKey_false_of_rng_ne
                  show outboundRecordRangeKey a.type (st.seq + E.length) i ≠
                    outboundRecordRangeKey b.type (st.seq + E.length) j
                  intro he
                  have h2 := (outboundKey_inj he).2.2
                  exact absurd h2 (Nat.ne_of_lt hij)
                have hcross : ∀ a ∈ (idxMap (Event P) (Rec P) (fun i e => newInboundRecord P f.name id (st.seq + 1 + i) e.type e.event now) 0 E), ∀ b ∈ (idxMap (Event P) (Rec P) (fun i e => newOutboundRecord P f.name id (st.seq + E.length) i e.type e.event now) 0 res.newOutboundEvents),
                    sameKey P a b = false := by
                  intro a ha b hb
                  obtain ⟨j, hj, hae⟩ := hinbshape a ha
                  obtain ⟨j2, hj2, hbe⟩ := houtshape b hb
                  subst hae
                  subst hbe
                  apply sameKey_false_of_rng_ne
                  show inboundRecordRangeKey (E.get ⟨j, hj⟩).type (st.seq + 1 + j) ≠
                    outboundRecordRangeKey (res.newOutboundEvents.get ⟨j2, hj2⟩).type
                      (st.seq + E.length) j2
                  exact inboundKey_ne_outboundKey _ _ _ _ _
                have hpw : List.Pairwise (fun a b => sameKey P a b = false)
                    ((idxMap (Event P) (Rec P) (fun i e => newInboundRecord P f.name id (st.seq + 1 + i) e.type e.event now) 0 E) ++ (idxMap (Event P) (Rec P) (fun i e => newOutboundRecord P f.name id (st.seq + E.length) i e.type e.event now) 0 res.newOutboundEvents)) :=
                  List.pairwise_append.mpr ⟨hpwinb, hpwout, hcross⟩
                have hnewid : ∀ r ∈ (idxMap (Event P) (Rec P) (fun i e => newInboundRecord P f.name id (st.seq + 1 + i) e.type e.event now) 0 E) ++ (idxMap (Event P) (Rec P) (fun i e => newOutboundRecord P f.name id (st.seq + E.length) i e.type e.event now) 0 res.newOutboundEvents),
                    r.rid = facetId f.name id := by
                  intro r hr
                  rcases List.mem_append.mp hr with h | h
                  · exact (hinbfacts r h).1
                  · exact (houtfacts r h).1
                have hnewrng : ∀ r ∈ (idxMap (Event P) (Rec P) (fun i e => newInboundRecord P f.name id (st.seq + 1 + i) e.type e.event now) 0 E) ++ (idxMap (Event P) (Rec P) (fun i e => newOutboundRecord P f.name id (st.seq + E.length) i e.type e.event now) 0 res.newOutboundEvents),
                    r.rng ≠ (newStateRecord P f.name id (st.seq + E.length) res.state now).rng := by
                  intro r hr
                  rcases List.mem_append.mp hr with h | h
                  · exact inbound_ne_state (hinbfacts r h).2.1
                  · exact outbound_ne_state (houtfacts r h).2.1
                have hidxr : ∀ r ∈ (f.indexStateFuncs.filterMap (fun sif => sif (newStateRecord P f.name id (st.seq + E.length) res.state now))), r.rid ≠ facetId f.name id := by
                  intro r hr
                  obtain ⟨g, hg, hgr⟩ := List.mem_filterMap.mp hr
                  exact hidxsafe g hg _ r hgr
                -- the group's records after the commit
                have hq2 : queryRecords P f.name store2 id =
                    (queryRecords P f.name store id).filter
                      (fun x => !(sameKey P x (newStateRecord P f.name id (st.seq + E.length) res.state now))) ++
                      (idxMap (Event P) (Rec P) (fun i e => newInboundRecord P f.name id (st.seq + 1 + i) e.type e.event now) 0 E) ++ (idxMap (Event P) (Rec P) (fun i e => newOutboundRecord P f.name id (st.seq + E.length) i e.type e.event now) 0 res.newOutboundEvents) ++ [newStateRecord P f.name id (st.seq + E.length) res.state now] := by
                  rw [← hstore2, ← hfold, hitems]
                  exact putStateItems_foldl_query P f.name store id (newStateRecord P f.name id (st.seq + E.length) res.state now)
                    st.seq (idxMap (Event P) (Rec P) (fun i e => newInboundRecord P f.name id (st.seq + 1 + i) e.type e.event now) 0 E) (idxMap (Event P) (Rec P) (fun i e => newOutboundRecord P f.name id (st.seq + E.length) i e.type e.event now) 0 res.newOutboundEvents) (f.indexStateFuncs.filterMap (fun sif => sif (newStateRecord P f.name id (st.seq + E.length) res.state now))) rfl hnewid hnewrng hfresh hpw hidxr
                -- facts about the old state record
                have hstmem : st ∈ (queryRecords P f.name store id).filter
                    (isStateRecord P) := by
                  rw [hq]
                  exact List.mem_singleton.mpr rfl
                have hstf := List.mem_filter.mp hstmem
                have hstrng : st.rng = "STATE" := beq_iff_eq.mp hstf.2
                have hstrid : st.rid = facetId f.name id := by
                  have h2 := List.mem_filter.mp (show st ∈ List.filter
                    (fun r => r.rid == facetId f.name id) store from hstf.1)
                  exact beq_iff_eq.mp h2.2
                have hsame_st : sameKey P st (newStateRecord P f.name id (st.seq + E.length) res.state now) = true := by
                  unfold sameKey
                  rw [hstrid, hstrng]
                  rw [show (newStateRecord P f.name id (st.seq + E.length) res.state now).rid = facetId f.name id from rfl]
                  rw [show (newStateRecord P f.name id (st.seq + E.length) res.state now).rng = "STATE" from rfl]
                  simp
                -- the class partitions of the new table
                have hstate2 : (queryRecords P f.name store2 id).filter
                    (isStateRecord P) = [newStateRecord P f.name id (st.seq + E.length) res.state now] := by
                  rw [hq2, List.filter_append, List.filter_append,
                    List.filter_append, filter_comm_bool, hq]
                  rw [show List.filter (fun x => !(sameKey P x (newStateRecord P f.name id (st.seq + E.length) res.state now))) [st] = []
                    from by simp [hsame_st]]
                  rw [show List.filter (isStateRecord P) (idxMap (Event P) (Rec P) (fun i e => newInboundRecord P f.name id (st.seq + 1 + i) e.type e.event now) 0 E) = [] from
                    List.filter_eq_nil_iff.mpr
                      (fun r hr => by simp [(hinbfacts r hr).2.2.2])]
                  rw [show List.filter (isStateRecord P) (idxMap (Event P) (Rec P) (fun i e => newOutboundRecord P f.name id (st.seq + E.length) i e.type e.event now) 0 res.newOutboundEvents) = [] from
                    List.filter_eq_nil_iff.mpr
                      (fun r hr => by simp [(houtfacts r hr).2.2.2])]
                  rw [show List.filter (isStateRecord P) [newStateRecord P f.name id (st.seq + E.length) res.state now] = [newStateRecord P f.name id (st.seq + E.length) res.state now]
                    from by simp [show isStateRecord P (newStateRecord P f.name id (st.seq + E.length) res.state now) = true from rfl]]
                  simp
                have hinb2 : (queryRecords P f.name store2 id).filter
                    (isInboundRecord P) =
                    (queryRecords P f.name store id).filter (isInboundRecord P) ++
                      (idxMap (Event P) (Rec P) (fun i e => newInboundRecord P f.name id (st.seq + 1 + i) e.type e.event now) 0 E) := by
                  rw [hq2, List.filter_append, List.filter_append,
                    List.filter_append, filter_comm_bool]
                  rw [show List.filter (fun x => !(sameKey P x (newStateRecord P f.name id (st.seq + E.length) res.state now)))
                      ((queryRecords P f.name store id).filter (isInboundRecord P)) =
                      (queryRecords P f.name store id).filter (isInboundRecord P)
                    from List.filter_eq_self.mpr (fun r hr => by
                      rw [sameKey_false_of_rng_ne P r (newStateRecord P f.name id (st.seq + E.length) res.state now)
                        (inbound_ne_state (List.mem_filter.mp hr).2)]
                      rfl)]
                  rw [show List.filter (isInboundRecord P) (idxMap (Event P) (Rec P) (fun i e => newInboundRecord P f.name id (st.seq + 1 + i) e.type e.event now) 0 E) = (idxMap (Event P) (Rec P) (fun i e => newInboundRecord P f.name id (st.seq + 1 + i) e.type e.event now) 0 E) from
                    List.filter_eq_self.mpr (fun r hr => (hinbfacts r hr).2.1)]
                  rw [show List.filter (isInboundRecord P) (idxMap (Event P) (Rec P) (fun i e => newOutboundRecord P f.name id (st.seq + E.length) i e.type e.event now) 0 res.newOutboundEvents) = [] from
                    List.filter_eq_nil_iff.mpr
                      (fun r hr => by simp [(houtfacts r hr).2.2.1])]
                  rw [show List.filter (isInboundRecord P) [newStateRecord P f.name id (st.seq + E.length) res.state now] = [] from by
                    simp [show isInboundRecord P (newStateRecord P f.name id (st.seq + E.length) res.state now) = false from
                      state_not_inbound rfl]]
                  simp
                have hout2 : (queryRecords P f.name store2 id).filter
                    (isOutboundRecord P) =
                    (queryRecords P f.name store id).filter (isOutboundRecord P) ++
                      (idxMap (Event P) (Rec P) (fun i e => newOutboundRecord P f.name id (st.seq + E.length) i e.type e.event now) 0 res.newOutboundEvents) := by
                  rw [hq2, List.filter_append, List.filter_append,
                    List.filter_append, filter_comm_bool]
                  rw [show List.filter (fun x => !(sameKey P x (newStateRecord P f.name id (st.seq + E.length) res.state now)))
                      ((queryRecords P f.name store id).filter (isOutboundRecord P)) =
                      (queryRecords P f.name store id).filter (isOutboundRecord P)
                    from List.filter_eq_self.mpr (fun r hr => by
                      rw [sameKey_false_of_rng_ne P r (newStateRecord P f.name id (st.seq + E.length) res.state now)
                        (outbound_ne_state (List.mem_filter.mp hr).2)]
                      rfl)]
                  rw [show List.filter (isOutboundRecord P) (idxMap (Event P) (Rec P) (fun i e => newInboundRecord P f.name id (st.seq + 1 + i) e.type e.event now) 0 E) = [] from
                    List.filter_eq_nil_iff.mpr
                      (fun r hr => by simp [(hinbfacts r hr).2.2.1])]
                  rw [show List.filter (isOutboundRecord P) (idxMap (Event P) (Rec P) (fun i e => newOutboundRecord P f.name id (st.seq + E.length) i e.type e.event now) 0 res.newOutboundEvents) = (idxMap (Event P) (Rec P) (fun i e => newOutboundRecord P f.name id (st.seq + E.length) i e.type e.event now) 0 res.newOutboundEvents) from
                    List.filter_eq_self.mpr (fun r hr => (houtfacts r hr).2.1)]
                  rw [show List.filter (isOutboundRecord P) [newStateRecord P f.name id (st.seq + E.length) res.state now] = [] from by
                    simp [show isOutboundRecord P (newStateRecord P f.name id (st.seq + E.length) res.state now) = false from
                      state_not_outbound rfl]]
                  simp
                -- assemble the invariant for `H ++ E`
                simp only [WfGroup, hstate2, hinb2, hout2]
                simp only [Bool.and_eq_true]
                refine ⟨⟨⟨⟨?_, ?_⟩, ?_⟩, ?_⟩, ?_⟩
                · rw [beq_iff_eq]
                  show st.seq + E.length = (H ++ E).length
                  rw [List.length_append, hseqn]
                · have hpE2 := hpE
                  rw [hitem] at hpE2
                  have hcomp := process_append_compose P f.processor H E res0 res
                    hp hpE2
                  rw [hcomp]
                  show ((newStateRecord P f.name id (st.seq + E.length) res.state now).item == res.state) = true
                  exact beq_self_eq_true res.state
                · rw [List.map_append, histTriples_append]
                  rw [newInb_triples P f.name id st.seq now E 0]
                  rw [Nat.add_zero, hseqn]
                  exact List.isPerm_iff.mpr
                    ((List.isPerm_iff.mp hperm).append (List.Perm.refl _))
                · rw [List.all_eq_true]
                  intro r hr
                  rcases List.mem_append.mp hr with h | h
                  · exact List.all_eq_true.mp hshape r h
                  · obtain ⟨j, hj, hb⟩ := hinbshape r h
                    subst hb
                    exact beq_self_eq_true _
                · rw [List.all_eq_true]
                  intro r hr
                  rcases List.mem_append.mp hr with h | h
                  · have hold := List.all_eq_true.mp houtb r h
                    rw [Bool.and_eq_true] at hold ⊢
                    refine ⟨?_, hold.2⟩
                    rw [List.length_append]
                    exact decide_eq_true (Nat.le_trans (of_decide_eq_true hold.1)
                      (Nat.le_add_right _ _))
                  · obtain ⟨j, hj, hb⟩ := houtshape r h
                    subst hb
                    rw [Bool.and_eq_true]
                    constructor
                    · show decide (st.seq + E.length ≤ (H ++ E).length) = true
                      rw [List.length_append]
                      exact decide_eq_true (Nat.le_of_eq (by rw [hseqn]))
                    · rw [outIdxOf_newOutbound]
                      exact beq_self_eq_true _

end EvDB
